import Mathlib

/-!
Verification of the resource-allocation macros in `camkes/templates/macros.py`:
badge allocators (`global_endpoint_badges`, `global_rpc_endpoint_badges`),
the virtqueue client-ID allocator (`virtqueue_get_client_id`), the integrity
group-label canonicalizer (`integrity_group_labels`) and the device-tree
interrupt parser (`parse_dtb_node_interrupts`).

The Python code is embedded shallowly: machine integers are `Nat`/`Int`
(Python integers are unbounded, so no wrap-around modelling is needed),
fallible code returns `Except Err`, and the `for`-loops with early `return`
become explicit recursions threading the loop state.  Connection ends are
compared by object identity in Python; here each end carries an arena
identifier `eid`, so distinct end objects are modelled by records that differ
at least in `eid` and identity comparison becomes structural equality.
-/

namespace CamkesMacros

deriving instance DecidableEq for Except

/-- Error outcomes of the embedded code.  `TemplateError`s are split by kind
(the kinds the spec names); `typeError`, `attributeError`, `indexError` and
`valueError` model the corresponding built-in Python exceptions. -/
inductive Err where
  | allocExhausted (e : String)
  | tooManyInterrupts (num : Nat) (maxNum : Int)
  | malformedList (len cells : Nat)
  | malformedValue (idx : Nat) (fieldName : String)
  | labelCycle (chain : List String)
  | typeError
  | attributeError
  | indexError
  | valueError
deriving DecidableEq

/-- One decoded device-tree property cell: an integer, or some non-integral
value (Python is dynamically typed; only integrality matters to the code). -/
inductive DTValue where
  | int (n : Int)
  | nonInt (s : String)
deriving DecidableEq

/-- The decoded device-tree node handed to `parse_dtb_node_interrupts`: the
optional `interrupts` and `interrupts_extended` property value lists. -/
structure DTBNode where
  interrupts : Option (List DTValue)
  interrupts_extended : Option (List DTValue)
deriving DecidableEq

/-- An interrupt descriptor as built by `parse_dtb_node_interrupts`.  The
`irq` entry is whatever value the code stores (it is only guaranteed to be an
integer on paths that add the ARM SPI offset); `trigger` is `1` or `0`. -/
structure IrqDesc where
  irq : DTValue
  trigger : Nat
deriving DecidableEq

/-- Modelled from the spec: `is_arch_arm` from `camkes.templates.arch_helpers`
(that module is not under `src/`); it recognizes exactly the ARM-family
architecture tags. -/
def is_arch_arm (arch : String) : Bool :=
  arch == "aarch32" || arch == "arm_hyp" || arch == "aarch64"

/-- Left-to-right effectful map over a list in `Except Err`, the embedding of
a Python `for` loop that appends one result per element and propagates the
first raised exception. -/
def mapExcept (f : α → Except Err β) : List α → Except Err (List β)
  | [] => .ok []
  | x :: xs =>
    match f x with
    | .error e => .error e
    | .ok y =>
      match mapExcept f xs with
      | .error e => .error e
      | .ok ys => .ok (y :: ys)

/-- Python list indexing `interrupts[idx]`: `IndexError` when out of range. -/
def getDT (interrupts : List DTValue) (idx : Nat) : Except Err DTValue :=
  match interrupts.get? idx with
  | none => .error .indexError
  | some v => .ok v

/-- ARM branch, `_irq = _irq + 32` guarded by
`isinstance(_irq_spi, numbers.Integral) and _irq_spi == 0`; adding `32` to a
non-integer `_irq` raises `TypeError` in Python. -/
def arm_irq_add_spi (spi irq0 : DTValue) : Except Err DTValue :=
  match spi with
  | .int 0 =>
    match irq0 with
    | .int n => .ok (.int (n + 32))
    | .nonInt _ => .error .typeError
  | _ => .ok irq0

/-- ARM branch, `_trigger = 1 if _trigger < 4 else 0`; comparing a non-integer
with `4` raises `TypeError` in Python 3. -/
def arm_trigger (t : DTValue) : Except Err Nat :=
  match t with
  | .int n => .ok (if n < 4 then 1 else 0)
  | .nonInt _ => .error .typeError

/-- One iteration of the ARM loop of `parse_dtb_node_interrupts`
(macros.py lines 729-742).  In the extended form the first field is skipped
but the stride stays 3. -/
def arm_parse_one (interrupts : List DTValue) (ext : Bool) (i : Nat) : Except Err IrqDesc :=
  match getDT interrupts (if ext then i*3+3 else i*3+2) with
  | .error e => .error e
  | .ok trig0 =>
  match getDT interrupts (if ext then i*3+2 else i*3+1) with
  | .error e => .error e
  | .ok irq0 =>
  match getDT interrupts (if ext then i*3+1 else i*3+0) with
  | .error e => .error e
  | .ok spi =>
  match arm_irq_add_spi spi irq0 with
  | .error e => .error e
  | .ok irq =>
  match arm_trigger trig0 with
  | .error e => .error e
  | .ok trig => .ok ⟨irq, trig⟩

/-- ARM branch of `parse_dtb_node_interrupts` (macros.py lines 717-743).
The interrupt count is `len // 3` (`len // 4` in extended form).  When the
count exceeds `max_num_interrupts` the source executes
`raise TemplateError('Device has more than %d interrupts, ...') % (max_num_interrupts)`:
the `%` is applied to the exception object, not to the format string, so
Python raises `TypeError` while evaluating the `raise` expression — the
`TemplateError` is never raised and the maximum is never formatted in. -/
def arm_parse (interrupts : List DTValue) (ext : Bool) (max_num : Int) : Except Err (List IrqDesc) :=
  if max_num ≠ -1 ∧
      ((if ext then interrupts.length / 4 else interrupts.length / 3 : Nat) : Int) > max_num then
    .error .typeError
  else
    mapExcept (arm_parse_one interrupts ext)
      (List.range (if ext then interrupts.length / 4 else interrupts.length / 3))

/-- Generic branch, `parse_int` (macros.py lines 782-790): a non-integral cell
is a `TemplateError` identifying the flat index and the field name. -/
def parse_int_cell (interrupts : List DTValue) (cells i offs : Nat) (nm : String) : Except Err Int :=
  match interrupts.get? (i * cells + offs) with
  | none => .error .indexError
  | some (.int v) => .ok v
  | some (.nonInt _) => .error (.malformedValue (i * cells + offs) nm)

/-- One iteration of the generic (non-ARM) loop of
`parse_dtb_node_interrupts` (macros.py lines 780-832).  `irq_flags & 0x3`
on Python's two's-complement unbounded integers equals `irq_flags % 4`
with a non-negative remainder, which is `Int.emod`, Lean's `%`. -/
def generic_parse_one (interrupts : List DTValue) (cells : Nat) (arch : String) (i : Nat) : Except Err IrqDesc :=
  match parse_int_cell interrupts cells i (if cells = 3 then 1 else 0) "id" with
  | .error e => .error e
  | .ok irq =>
  match (if cells = 3 then (parse_int_cell interrupts cells i 2 "trigger").map some else .ok none) with
  | .error e => .error e
  | .ok irq_flags =>
  match (if cells = 3 then (parse_int_cell interrupts cells i 0 "type").map some else .ok none) with
  | .error e => .error e
  | .ok irq_type =>
    let is_edge : Bool :=
      match irq_flags with
      | none => true
      | some f => decide (¬ f % 4 = 0)
    let is_arm_spi : Bool :=
      match irq_type with
      | none => false
      | some t => is_arch_arm arch && decide (t = 0)
    .ok ⟨.int (if is_arm_spi then irq + 32 else irq), if is_edge then 1 else 0⟩

/-- Generic (non-ARM) branch of `parse_dtb_node_interrupts`
(macros.py lines 749-834): drop the controller reference in extended form
(returning `[]` when nothing remains), guess 1 or 3 cells per interrupt,
reject lengths that are not a multiple of the cell count, enforce
`max_num_interrupts`, then decode each interrupt. -/
def generic_parse (interrupts0 : List DTValue) (ext : Bool) (max_num : Int) (arch : String) : Except Err (List IrqDesc) :=
  if ext ∧ interrupts0.length ≤ 1 then .ok []
  else
    let interrupts := if ext then interrupts0.drop 1 else interrupts0
    let cells := if interrupts.length < 3 then 1 else 3
    if interrupts.length % cells ≠ 0 then .error (.malformedList interrupts.length cells)
    else if max_num ≠ -1 ∧ ((interrupts.length / cells : Nat) : Int) > max_num then
      .error (.tooManyInterrupts (interrupts.length / cells) max_num)
    else mapExcept (generic_parse_one interrupts cells arch) (List.range (interrupts.length / cells))

/-- `parse_dtb_node_interrupts` (macros.py lines 690-834): choose the property
list (`interrupts`, else `interrupts_extended`, else no interrupts) and the
architecture branch. -/
def parse_dtb_node_interrupts (node : DTBNode) (max_num : Int) (arch : String) : Except Err (List IrqDesc) :=
  match node.interrupts with
  | some ints =>
    if is_arch_arm arch then arm_parse ints false max_num else generic_parse ints false max_num arch
  | none =>
    match node.interrupts_extended with
    | none => .ok []
    | some ints =>
      if is_arch_arm arch then arm_parse ints true max_num else generic_parse ints true max_num arch

/-- Claim C5: on an ARM architecture tag with `max_num_interrupts = -1`,
`interrupts = [0, 5, 2]` yields exactly one descriptor with `irq = 37` and
`trigger = 1`, and `interrupts = [0, 5, 4]` yields exactly one descriptor
with `irq = 37` and `trigger = 0`. -/
theorem c5_arm_concrete_descriptors :
    parse_dtb_node_interrupts ⟨some [.int 0, .int 5, .int 2], none⟩ (-1) "aarch64"
      = .ok [⟨.int 37, 1⟩]
    ∧ parse_dtb_node_interrupts ⟨some [.int 0, .int 5, .int 4], none⟩ (-1) "aarch64"
      = .ok [⟨.int 37, 0⟩] := by
  constructor <;> rfl

/-- Claim C4: with two interrupts declared and `max_num_interrupts = 1`, the
ARM branch does not produce the too-many-interrupts `TemplateError`: because
the source applies `%` to the exception object instead of the format string,
evaluating the `raise` expression raises `TypeError` (with no maximum in its
message).  The non-ARM branch on the analogous input does produce the
too-many-interrupts error naming the count and the maximum. -/
theorem c4_too_many_interrupts_bug :
    parse_dtb_node_interrupts ⟨some [.int 0, .int 5, .int 2, .int 0, .int 6, .int 2], none⟩ 1 "aarch64"
      = .error .typeError
    ∧ (∀ num maxN, Err.typeError ≠ Err.tooManyInterrupts num maxN)
    ∧ parse_dtb_node_interrupts ⟨some [.int 5, .int 6], none⟩ 1 "riscv64"
      = .error (.tooManyInterrupts 2 1) := by
  refine ⟨by rfl, ?_, by rfl⟩
  intro num maxN h
  cases h

theorem mapExcept_ok_length (f : α → Except Err β) (l : List α) (r : List β)
    (h : mapExcept f l = .ok r) : r.length = l.length := by
  induction l generalizing r with
  | nil => simp only [mapExcept] at h; cases h; rfl
  | cons x xs ih =>
    simp only [mapExcept] at h
    cases hx : f x with
    | error e => rw [hx] at h; cases h
    | ok y =>
      rw [hx] at h
      cases hxs : mapExcept f xs with
      | error e => rw [hxs] at h; cases h
      | ok ys =>
        rw [hxs] at h
        cases h
        simp [ih ys hxs]

theorem mapExcept_error (f : α → Except Err β) (l : List α) (e : Err)
    (h : mapExcept f l = .error e) : ∃ x ∈ l, f x = .error e := by
  induction l with
  | nil => simp only [mapExcept] at h; cases h
  | cons x xs ih =>
    simp only [mapExcept] at h
    cases hx : f x with
    | error e1 => rw [hx] at h; cases h; exact ⟨x, by simp, hx⟩
    | ok y =>
      rw [hx] at h
      cases hxs : mapExcept f xs with
      | error e1 =>
        rw [hxs] at h
        cases h
        obtain ⟨z, hz, hfz⟩ := ih hxs
        exact ⟨z, by simp [hz], hfz⟩
      | ok ys => rw [hxs] at h; cases h

theorem getDT_error (l : List DTValue) (idx : Nat) (e : Err)
    (h : getDT l idx = .error e) : e = .indexError := by
  unfold getDT at h
  split at h
  · cases h; rfl
  · cases h

theorem arm_irq_add_spi_error (spi irq0 : DTValue) (e : Err)
    (h : arm_irq_add_spi spi irq0 = .error e) : e = .typeError := by
  unfold arm_irq_add_spi at h
  split at h
  · split at h
    · cases h
    · cases h; rfl
  · cases h

theorem arm_trigger_error (t : DTValue) (e : Err)
    (h : arm_trigger t = .error e) : e = .typeError := by
  unfold arm_trigger at h
  split at h
  · cases h
  · cases h; rfl

theorem arm_parse_one_error (interrupts : List DTValue) (ext : Bool) (i : Nat) (e : Err)
    (h : arm_parse_one interrupts ext i = .error e) : e = .indexError ∨ e = .typeError := by
  unfold arm_parse_one at h
  split at h
  next e1 heq1 =>
    cases h
    exact .inl (getDT_error _ _ _ heq1)
  next trig0 heq1 =>
    split at h
    next e2 heq2 =>
      cases h
      exact .inl (getDT_error _ _ _ heq2)
    next irq0 heq2 =>
      split at h
      next e3 heq3 =>
        cases h
        exact .inl (getDT_error _ _ _ heq3)
      next spi heq3 =>
        split at h
        next e4 heq4 =>
          cases h
          exact .inr (arm_irq_add_spi_error _ _ _ heq4)
        next irq heq4 =>
          split at h
          next e5 heq5 =>
            cases h
            exact .inr (arm_trigger_error _ _ heq5)
          next trig heq5 => cases h

theorem arm_parse_error (interrupts : List DTValue) (ext : Bool) (max_num : Int) (e : Err)
    (h : arm_parse interrupts ext max_num = .error e) : e = .indexError ∨ e = .typeError := by
  unfold arm_parse at h
  by_cases hc : max_num ≠ -1 ∧
      ((if ext then interrupts.length / 4 else interrupts.length / 3 : Nat) : Int) > max_num
  · rw [if_pos hc] at h
    cases h
    exact .inr rfl
  · rw [if_neg hc] at h
    obtain ⟨i, _, hfi⟩ := mapExcept_error _ _ _ h
    exact arm_parse_one_error _ _ _ _ hfi

theorem arm_parse_ok_length (interrupts : List DTValue) (ext : Bool) (max_num : Int)
    (r : List IrqDesc) (h : arm_parse interrupts ext max_num = .ok r) :
    r.length = (if ext then interrupts.length / 4 else interrupts.length / 3) := by
  unfold arm_parse at h
  by_cases hc : max_num ≠ -1 ∧
      ((if ext then interrupts.length / 4 else interrupts.length / 3 : Nat) : Int) > max_num
  · rw [if_pos hc] at h
    cases h
  · rw [if_neg hc] at h
    have hl := mapExcept_ok_length _ _ _ h
    simpa using hl

/-- Claim C10: on an ARM architecture tag, `parse_dtb_node_interrupts` never
produces the malformed-interrupt-list or malformed-interrupt-value errors:
the interrupt count is `len // 3` (or `len // 4` in the extended form), so
trailing cells beyond a whole multiple of the stride are silently dropped,
and no length-divisibility or cell-integrality `TemplateError` exists on
this branch (the only failures are `TypeError`s and index errors). -/
theorem c10_arm_branch_lenient (arch : String) (harch : is_arch_arm arch = true)
    (node : DTBNode) (max_num : Int) :
    (∀ e, parse_dtb_node_interrupts node max_num arch = .error e →
        (∀ a b, e ≠ .malformedList a b) ∧ (∀ i nm, e ≠ .malformedValue i nm))
    ∧ (∀ l r, node.interrupts = some l →
        parse_dtb_node_interrupts node max_num arch = .ok r → r.length = l.length / 3)
    ∧ (∀ l r, node.interrupts = none → node.interrupts_extended = some l →
        parse_dtb_node_interrupts node max_num arch = .ok r → r.length = l.length / 4) := by
  refine ⟨?_, ?_, ?_⟩
  · intro e he
    have hshape : e = Err.indexError ∨ e = Err.typeError := by
      unfold parse_dtb_node_interrupts at he
      split at he
      · rw [if_pos harch] at he
        exact arm_parse_error _ _ _ _ he
      · split at he
        · cases he
        · rw [if_pos harch] at he
          exact arm_parse_error _ _ _ _ he
    rcases hshape with rfl | rfl
    · exact ⟨fun a b hab => Err.noConfusion hab, fun i nm hnm => Err.noConfusion hnm⟩
    · exact ⟨fun a b hab => Err.noConfusion hab, fun i nm hnm => Err.noConfusion hnm⟩
  · intro l r hint hok
    unfold parse_dtb_node_interrupts at hok
    rw [hint] at hok
    simp only [] at hok
    rw [if_pos harch] at hok
    simpa using arm_parse_ok_length _ _ _ _ hok
  · intro l r hint hext hok
    unfold parse_dtb_node_interrupts at hok
    rw [hint, hext] at hok
    simp only [] at hok
    rw [if_pos harch] at hok
    simpa using arm_parse_ok_length _ _ _ _ hok

/-- Witness for C10 at a concrete input: a 6-cell ARM `interrupts` list with
`max_num_interrupts = -1` decodes (no malformed-list error is produced even
though no divisibility check ran) and the theorem bounds its length. -/
theorem c10_arm_branch_lenient_witness :
    ([⟨.int 37, 1⟩, ⟨.int 38, 1⟩] : List IrqDesc).length
      = ([.int 0, .int 5, .int 2, .int 0, .int 6, .int 2] : List DTValue).length / 3 :=
  (c10_arm_branch_lenient "aarch64" rfl
      ⟨some [.int 0, .int 5, .int 2, .int 0, .int 6, .int 2], none⟩ (-1)).2.1
    [.int 0, .int 5, .int 2, .int 0, .int 6, .int 2]
    [⟨.int 37, 1⟩, ⟨.int 38, 1⟩] rfl (by rfl)

structure Inst where
  name : String
  address_space : String
deriving DecidableEq

/-- One side of a connection: the owning instance's name and the interface
name, plus an arena identifier `eid` standing in for Python object identity
(`end is i`); see the file comment. -/
structure ConnectionEnd where
  eid : Nat
  inst : String
  iface : String
deriving DecidableEq

/-- Python `str(end)`, used as a configuration scope and in error messages. -/
def endStr (e : ConnectionEnd) : String := e.inst ++ "." ++ e.iface

/-- A connector type: its name and the `default` of each attribute the badge
allocators query via `get_attribute` (`none` when the attribute is absent). -/
structure ConnectorType where
  name : String
  from_global_endpoint : Option Bool
  to_global_endpoint : Option Bool
  from_global_rpc_endpoint : Option Bool
  to_global_rpc_endpoint : Option Bool
deriving DecidableEq

structure Connection where
  name : String
  type : ConnectorType
  from_ends : List ConnectionEnd
  to_ends : List ConnectionEnd
deriving DecidableEq

structure Composition where
  instances : List Inst
  connections : List Connection
deriving DecidableEq

/-- Truthiness of `c.type.get_attribute(a) and c.type.get_attribute(a).default`. -/
def attr_default : Option Bool → Bool
  | none => false
  | some b => b

/-- The configuration store, split by the type each call site reads:
integer badge bases and masks, integer virtqueue IDs, booleans, strings, and
the decoded node behind `configuration[scope].get("dtb").get('query')[0]`
(`none` when the access chain fails, which Python surfaces as
`AttributeError`). -/
structure Configuration where
  natVal : String → String → Option Nat
  intVal : String → String → Option Int
  boolVal : String → String → Option Bool
  strVal : String → String → Option String
  dtbQuery : String → Option DTBNode

/-- Python `a & ~b` on non-negative unbounded integers: the bits of `a`
outside `b` (b's complement has all higher bits set, so this is `a` with the
bits it shares with `b` removed). -/
def andNot (a b : Nat) : Nat := a ^^^ (a &&& b)

theorem andNot_eq_zero_iff (a b : Nat) : andNot a b = 0 ↔ a &&& b = a := by
  unfold andNot
  rw [Nat.xor_eq_zero]
  exact eq_comm

/-- `set_next_badge` from `global_endpoint_badges` (macros.py lines 545-554):
check exhaustion on the incoming cursor, then move `0 ↦ 1` or left-shift, and
recurse while the candidate shares no bit with `mask`.  `badgeBits` models
`get_libsel4_constant('seL4_Value_BadgeBits')` (capdl, outside `src/`): the
architecture's badge-bit width. -/
def set_next_badge (badgeBits : Nat) (e : String) (next_badge mask : Nat) : Except Err Nat :=
  if next_badge ≥ 2^badgeBits then .error (.allocExhausted e)
  else
    let nb := if next_badge = 0 then 1 else next_badge <<< 1
    if nb &&& mask = 0 then set_next_badge badgeBits e nb mask
    else .ok nb
termination_by 2^badgeBits - next_badge
decreasing_by
  rename_i h1 _
  simp only [Nat.shiftLeft_eq, Nat.pow_one]
  split <;> omega

/-- `set_next_badge` from `global_rpc_endpoint_badges` (macros.py lines
610-618): check exhaustion against `min(2^badgeBits, mask)` on the incoming
cursor, and while some bit of the cursor lies outside `mask`, add those
outside bits (`~mask & next_badge`) on and retry. -/
def rpc_set_next_badge (badgeBits : Nat) (e : String) (next_badge mask : Nat) : Except Err Nat :=
  if next_badge ≥ min (2^badgeBits) mask then .error (.allocExhausted e)
  else if ¬ (next_badge &&& mask = next_badge) then
    rpc_set_next_badge badgeBits e (andNot next_badge mask + next_badge) mask
  else .ok next_badge
termination_by min (2^badgeBits) mask - next_badge
decreasing_by
  rename_i h1 h2
  have h3 : andNot next_badge mask ≠ 0 := fun h0 => h2 ((andNot_eq_zero_iff _ _).1 h0)
  simp only [ge_iff_le, not_le] at h1
  omega

/-- Claim C3 (counterexample): with `badgeBits = 4` and `mask = 2^4`, stepping
the notification cursor from `8` makes the cursor reach `2^4 = 16`, yet the
step returns the value `16` instead of failing: the exhaustion check applies
only to the incoming cursor, not to the shifted candidate. -/
theorem c3_counterexample :
    set_next_badge 4 "srv.e" 8 (2^4) = .ok 16 ∧ 2^4 ≤ 16 := by
  constructor
  · simp [set_next_badge]
  · decide

theorem pow_two_and_of_ne_zero (k m : Nat) (h : 2^k &&& m ≠ 0) : 2^k &&& m = 2^k := by
  have hbit : m.testBit k = true := by
    by_contra hb
    rw [Bool.not_eq_true] at hb
    apply h
    apply Nat.eq_of_testBit_eq
    intro i
    rw [Nat.testBit_and, Nat.testBit_two_pow, Nat.zero_testBit]
    by_cases hik : k = i
    · subst hik
      simp [hb]
    · simp [hik]
  apply Nat.eq_of_testBit_eq
  intro i
  rw [Nat.testBit_and, Nat.testBit_two_pow]
  by_cases hik : k = i
  · subst hik
    simp [hbit]
  · simp [hik]

theorem set_next_badge_ok_aux (badgeBits : Nat) (e : String) (gas : Nat) :
    ∀ next mask r : Nat, 2^badgeBits ≤ next + gas →
      (next = 0 ∨ ∃ k, next = 2^k) →
      set_next_badge badgeBits e next mask = .ok r →
      (∃ k, r = 2^k) ∧ r &&& mask = r ∧ r ≤ 2^badgeBits ∧ next < r := by
  induction gas with
  | zero =>
    intro next mask r hgas hp h
    rw [set_next_badge, if_pos (by omega)] at h
    cases h
  | succ g ih =>
    intro next mask r hgas hp h
    by_cases hge : next ≥ 2^badgeBits
    · rw [set_next_badge, if_pos hge] at h
      cases h
    · rw [set_next_badge, if_neg hge] at h
      simp only [] at h
      rcases hp with rfl | ⟨k, rfl⟩
      · rw [if_pos rfl] at h
        by_cases hm : (1 : Nat) &&& mask = 0
        · rw [if_pos hm] at h
          have hpost := ih 1 mask r (by omega) (.inr ⟨0, by norm_num⟩) h
          exact ⟨hpost.1, hpost.2.1, hpost.2.2.1, by omega⟩
        · rw [if_neg hm] at h
          cases h
          refine ⟨⟨0, by norm_num⟩, ?_, ?_, by omega⟩
          · have := pow_two_and_of_ne_zero 0 mask (by simpa using hm)
            simpa using this
          · have := pow_pos (by norm_num : (0:Nat) < 2) badgeBits
            omega
      · have hnz : 2^k ≠ 0 := by positivity
        rw [if_neg hnz] at h
        have hsh : (2^k) <<< 1 = 2^(k+1) := by
          rw [Nat.shiftLeft_eq, Nat.pow_one, Nat.pow_succ]
        by_cases hm : (2^k) <<< 1 &&& mask = 0
        · rw [if_pos hm] at h
          have hlt : 2^k < 2^badgeBits := by omega
          have hdouble : (2^k) <<< 1 = 2^k * 2 := by rw [Nat.shiftLeft_eq, Nat.pow_one]
          have hpos : 0 < 2^k := by positivity
          have hpost := ih ((2^k) <<< 1) mask r (by omega) (.inr ⟨k+1, hsh⟩) h
          exact ⟨hpost.1, hpost.2.1, hpost.2.2.1, by omega⟩
        · rw [if_neg hm] at h
          cases h
          rw [hsh] at hm ⊢
          refine ⟨⟨k+1, rfl⟩, pow_two_and_of_ne_zero _ _ hm, ?_, ?_⟩
          · have hlt : 2^k < 2^badgeBits := by omega
            have hkb : k < badgeBits := (Nat.pow_lt_pow_iff_right (by norm_num)).1 hlt
            exact Nat.pow_le_pow_right (by norm_num) hkb
          · have hpos : 0 < 2^k := by positivity
            rw [Nat.pow_succ]
            omega

/-- Postcondition of the notification cursor step on the cursor values the
allocator actually feeds it (zero or a power of two): the result is a power
of two whose bit lies inside `mask`, is strictly larger than the input, and
is at most `2^badgeBits` (it can equal `2^badgeBits` when `mask` has that
bit, which is the corner case of claims C2/C3). -/
theorem set_next_badge_ok (badgeBits : Nat) (e : String) (next mask r : Nat)
    (hp : next = 0 ∨ ∃ k, next = 2^k)
    (h : set_next_badge badgeBits e next mask = .ok r) :
    (∃ k, r = 2^k) ∧ r &&& mask = r ∧ r ≤ 2^badgeBits ∧ next < r :=
  set_next_badge_ok_aux badgeBits e (2^badgeBits) next mask r (by omega) hp h

theorem rpc_set_next_badge_ok_aux (badgeBits : Nat) (e : String) (gas : Nat) :
    ∀ next mask r : Nat, min (2^badgeBits) mask ≤ next + gas →
      rpc_set_next_badge badgeBits e next mask = .ok r →
      r &&& mask = r ∧ next ≤ r ∧ r < min (2^badgeBits) mask := by
  induction gas with
  | zero =>
    intro next mask r hgas h
    rw [rpc_set_next_badge, if_pos (by omega)] at h
    cases h
  | succ g ih =>
    intro next mask r hgas h
    by_cases hge : next ≥ min (2^badgeBits) mask
    · rw [rpc_set_next_badge, if_pos hge] at h
      cases h
    · rw [rpc_set_next_badge, if_neg hge] at h
      by_cases hm : next &&& mask = next
      · rw [if_neg (not_not_intro hm)] at h
        cases h
        exact ⟨hm, le_refl _, by omega⟩
      · rw [if_pos hm] at h
        have h3 : andNot next mask ≠ 0 := fun h0 => hm ((andNot_eq_zero_iff _ _).1 h0)
        have hpost := ih (andNot next mask + next) mask r (by omega) h
        exact ⟨hpost.1, by omega, hpost.2.2⟩

/-- Postcondition of the RPC cursor step: the result has all its bits inside
`mask`, is at least the input, and is strictly below `min(2^badgeBits, mask)`. -/
theorem rpc_set_next_badge_ok (badgeBits : Nat) (e : String) (next mask r : Nat)
    (h : rpc_set_next_badge badgeBits e next mask = .ok r) :
    r &&& mask = r ∧ next ≤ r ∧ r < min (2^badgeBits) mask :=
  rpc_set_next_badge_ok_aux badgeBits e (min (2^badgeBits) mask) next mask r (by omega) h

/-- Claim C3 (amended): the notification cursor step yields `1` from cursor
`0` when bit 0 lies in `mask`; from a nonzero cursor below `2^badgeBits` it
left-shifts once, returning the shifted value when it shares a bit with
`mask` and repeating the step from the shifted value otherwise; the
allocation-exhausted check applies to the incoming cursor value at each
entry, so a cursor at or above `2^badgeBits` fails, but a shifted candidate
that lands in `mask` is returned even when it has reached `2^badgeBits`
(the counterexample `c3_counterexample`). -/
theorem c3_cursor_step (badgeBits : Nat) (e : String) (mask : Nat) :
    (mask &&& 1 ≠ 0 → set_next_badge badgeBits e 0 mask = .ok 1)
    ∧ (∀ next, next ≠ 0 → next < 2^badgeBits → (next <<< 1) &&& mask ≠ 0 →
        set_next_badge badgeBits e next mask = .ok (next <<< 1))
    ∧ (∀ next, next ≠ 0 → next < 2^badgeBits → (next <<< 1) &&& mask = 0 →
        set_next_badge badgeBits e next mask = set_next_badge badgeBits e (next <<< 1) mask)
    ∧ (∀ next, 2^badgeBits ≤ next →
        set_next_badge badgeBits e next mask = .error (.allocExhausted e)) := by
  have hpos : 0 < 2^badgeBits := pow_pos (by norm_num) badgeBits
  refine ⟨?_, ?_, ?_, ?_⟩
  · intro hm
    rw [set_next_badge, if_neg (by omega)]
    simp only [if_pos rfl]
    rw [if_neg (by rwa [Nat.and_comm] at hm)]
    norm_num
  · intro next hnz hlt hm
    rw [set_next_badge, if_neg (by omega)]
    simp only [if_neg hnz]
    rw [if_neg hm]
  · intro next hnz hlt hm
    rw [set_next_badge, if_neg (by omega)]
    simp only [if_neg hnz]
    rw [if_pos hm]
  · intro next hge
    rw [set_next_badge, if_pos hge]

/-- Witness for C3 (amended) at concrete inputs: with `mask = 5` the step
from `0` yields `1`, and from `16 ≥ 2^4` it fails exhausted. -/
theorem c3_cursor_step_witness :
    set_next_badge 4 "srv.e" 0 5 = .ok 1
    ∧ set_next_badge 4 "srv.e" 16 5 = .error (.allocExhausted "srv.e") :=
  ⟨(c3_cursor_step 4 "srv.e" 5).1 (by decide),
   (c3_cursor_step 4 "srv.e" 5).2.2.2 16 (by decide)⟩

/-- `configuration[instance.name].get("global_endpoint_base", 1)`. -/
def notif_base (conf : Configuration) (inst : String) : Nat :=
  (conf.natVal inst "global_endpoint_base").getD 1

/-- `configuration[instance.name].get("global_endpoint_mask", (2**badgeBits - 1) & ~base)`. -/
def notif_mask (badgeBits : Nat) (conf : Configuration) (inst : String) : Nat :=
  (conf.natVal inst "global_endpoint_mask").getD
    (andNot (2^badgeBits - 1) (notif_base conf inst))

/-- The interrupt-badge loop of the DTB block of `global_endpoint_badges`
(macros.py lines 569-572): allocate one badge per interrupt — append
`next_badge | base`, then step the cursor — returning the batch and the final
cursor. -/
def notif_alloc_irqs (badgeBits : Nat) (eS : String) (base mask : Nat) :
    Nat → Nat → Except Err (List Nat × Nat)
  | 0, next => .ok ([], next)
  | n+1, next =>
    match set_next_badge badgeBits eS next mask with
    | .error er => .error er
    | .ok next' =>
      match notif_alloc_irqs badgeBits eS base mask n next' with
      | .error er => .error er
      | .ok (rest, fin) => .ok ((next ||| base) :: rest, fin)

/-- The ends loop of `global_endpoint_badges` for a connection whose
connector has a truthy `from_global_endpoint` (resp. `to_global_endpoint`)
attribute (macros.py lines 576-580 resp. 582-586): for each end owned by
`inst`, return `next_badge | base` if the end is `E`, else step the cursor. -/
def notif_scan_ends (badgeBits : Nat) (eS : String) (base mask : Nat)
    (endE : ConnectionEnd) (inst : String) :
    List ConnectionEnd → Nat → Except Err (Option Nat × Nat)
  | [], next => .ok (none, next)
  | i :: rest, next =>
    if i.inst = inst then
      if endE = i then .ok (some (next ||| base), next)
      else
        match set_next_badge badgeBits eS next mask with
        | .error er => .error er
        | .ok next' => notif_scan_ends badgeBits eS base mask endE inst rest next'
    else notif_scan_ends badgeBits eS base mask endE inst rest next

/-- The `to_ends` loop of the DTB-threadless block of
`global_endpoint_badges` (macros.py lines 564-574): skip ends without
`generate_interrupts`; otherwise parse the end's device-tree node (the
`dtb`/`query` configuration access raises `AttributeError` when absent),
allocate one badge per interrupt, and return the batch if the end is `E`. -/
def notif_scan_dtb (badgeBits : Nat) (eS : String) (base mask : Nat)
    (endE : ConnectionEnd) (conf : Configuration) (arch : String) :
    List ConnectionEnd → Nat → Except Err (Option (List Nat) × Nat)
  | [], next => .ok (none, next)
  | te :: rest, next =>
    if ((conf.boolVal (endStr te) "generate_interrupts").getD false) = false then
      notif_scan_dtb badgeBits eS base mask endE conf arch rest next
    else
      match conf.dtbQuery (endStr te) with
      | none => .error .attributeError
      | some node =>
        match parse_dtb_node_interrupts node (-1) arch with
        | .error er => .error er
        | .ok irqs =>
          match notif_alloc_irqs badgeBits eS base mask irqs.length next with
          | .error er => .error er
          | .ok (irq_badges, next') =>
            if endE = te then .ok (some irq_badges, next')
            else notif_scan_dtb badgeBits eS base mask endE conf arch rest next'

/-- Result of `global_endpoint_badges`: a single badge value, or (for the
DTB-threadless interrupt case) an ordered list of badge values. -/
inductive NotifResult where
  | single (b : Nat)
  | list (bs : List Nat)
deriving DecidableEq

/-- The connection loop of `global_endpoint_badges` (macros.py lines
562-586): for each connection in declaration order, try the DTB-threadless
block, then the `from_global_endpoint` block, then the `to_global_endpoint`
block, threading the cursor; falling off the end raises the
badge-not-allocatable exception (macros.py line 588). -/
def notif_scan_conns (badgeBits : Nat) (eS : String) (base mask : Nat)
    (endE : ConnectionEnd) (inst : String) (conf : Configuration) (arch : String) :
    List Connection → Nat → Except Err NotifResult
  | [], _ => .error (.allocExhausted eS)
  | c :: rest, next =>
    match (if (c.type.name = "seL4DTBHardwareThreadless" ∨ c.type.name = "seL4DTBHWThreadless")
              ∧ (c.to_ends.any fun te => te.inst == inst)
           then notif_scan_dtb badgeBits eS base mask endE conf arch c.to_ends next
           else .ok (none, next)) with
    | .error er => .error er
    | .ok (some l, _) => .ok (.list l)
    | .ok (none, next1) =>
      match (if attr_default c.type.from_global_endpoint
             then notif_scan_ends badgeBits eS base mask endE inst c.from_ends next1
             else .ok (none, next1)) with
      | .error er => .error er
      | .ok (some b, _) => .ok (.single b)
      | .ok (none, next2) =>
        match (if attr_default c.type.to_global_endpoint
               then notif_scan_ends badgeBits eS base mask endE inst c.to_ends next2
               else .ok (none, next2)) with
        | .error er => .error er
        | .ok (some b, _) => .ok (.single b)
        | .ok (none, next3) =>
          notif_scan_conns badgeBits eS base mask endE inst conf arch rest next3

/-- `global_endpoint_badges` (macros.py lines 532-588): read base and mask
from the owning instance's configuration, seed the cursor with
`set_next_badge(0, mask)`, and scan the composition's connections. -/
def global_endpoint_badges (badgeBits : Nat) (comp : Composition) (endE : ConnectionEnd)
    (conf : Configuration) (arch : String) : Except Err NotifResult :=
  match set_next_badge badgeBits (endStr endE) 0 (notif_mask badgeBits conf endE.inst) with
  | .error er => .error er
  | .ok next =>
    notif_scan_conns badgeBits (endStr endE) (notif_base conf endE.inst)
      (notif_mask badgeBits conf endE.inst) endE endE.inst conf arch comp.connections next

/-- `configuration[instance.name].get("global_rpc_endpoint_base", 0)`. -/
def rpc_base (conf : Configuration) (inst : String) : Nat :=
  (conf.natVal inst "global_rpc_endpoint_base").getD 0

/-- `configuration[instance.name].get("global_rpc_endpoint_mask", 2**badgeBits - 2)`. -/
def rpc_mask (badgeBits : Nat) (conf : Configuration) (inst : String) : Nat :=
  (conf.natVal inst "global_rpc_endpoint_mask").getD (2^badgeBits - 2)

/-- The peer loop of `global_rpc_endpoint_badges` (macros.py lines 630-632
resp. 639-641): one badge per opposite-side end — append `next_badge | base`,
then step the cursor from `next_badge + 1`. -/
def rpc_alloc_peers (badgeBits : Nat) (eS : String) (base mask : Nat) :
    List ConnectionEnd → Nat → Except Err (List Nat × Nat)
  | [], next => .ok ([], next)
  | _ :: rest, next =>
    match rpc_set_next_badge badgeBits eS (next+1) mask with
    | .error er => .error er
    | .ok next' =>
      match rpc_alloc_peers badgeBits eS base mask rest next' with
      | .error er => .error er
      | .ok (l, fin) => .ok ((next ||| base) :: l, fin)

/-- The ends loop of `global_rpc_endpoint_badges` on one side of a
connection (macros.py lines 628-635 resp. 637-644): for each end owned by
`inst`, allocate one badge per end of the opposite side `opp`; return that
batch if the end is `E`, else discard it (`badges = []`) and continue. -/
def rpc_scan_ends (badgeBits : Nat) (eS : String) (base mask : Nat)
    (endE : ConnectionEnd) (inst : String) (opp : List ConnectionEnd) :
    List ConnectionEnd → Nat → Except Err (Option (List Nat) × Nat)
  | [], next => .ok (none, next)
  | i :: rest, next =>
    if i.inst = inst then
      match rpc_alloc_peers badgeBits eS base mask opp next with
      | .error er => .error er
      | .ok (batch, next') =>
        if endE = i then .ok (some batch, next')
        else rpc_scan_ends badgeBits eS base mask endE inst opp rest next'
    else rpc_scan_ends badgeBits eS base mask endE inst opp rest next

/-- The connection loop of `global_rpc_endpoint_badges` (macros.py lines
626-644): the `from_global_rpc_endpoint` block (peers are the `to_ends`),
then the `to_global_rpc_endpoint` block (peers are the `from_ends`); falling
off the end raises the not-allocatable exception (macros.py line 646). -/
def rpc_scan_conns (badgeBits : Nat) (eS : String) (base mask : Nat)
    (endE : ConnectionEnd) (inst : String) :
    List Connection → Nat → Except Err (List Nat)
  | [], _ => .error (.allocExhausted eS)
  | c :: rest, next =>
    match (if attr_default c.type.from_global_rpc_endpoint
           then rpc_scan_ends badgeBits eS base mask endE inst c.to_ends c.from_ends next
           else .ok (none, next)) with
    | .error er => .error er
    | .ok (some l, _) => .ok l
    | .ok (none, next1) =>
      match (if attr_default c.type.to_global_rpc_endpoint
             then rpc_scan_ends badgeBits eS base mask endE inst c.from_ends c.to_ends next1
             else .ok (none, next1)) with
      | .error er => .error er
      | .ok (some l, _) => .ok l
      | .ok (none, next2) => rpc_scan_conns badgeBits eS base mask endE inst rest next2

/-- `global_rpc_endpoint_badges` (macros.py lines 594-646): read base and
mask from the owning instance's configuration, seed the cursor with
`set_next_badge(1, mask)`, and scan the composition's connections. -/
def global_rpc_endpoint_badges (badgeBits : Nat) (comp : Composition) (endE : ConnectionEnd)
    (conf : Configuration) : Except Err (List Nat) :=
  match rpc_set_next_badge badgeBits (endStr endE) 1 (rpc_mask badgeBits conf endE.inst) with
  | .error er => .error er
  | .ok next =>
    rpc_scan_conns badgeBits (endStr endE) (rpc_base conf endE.inst)
      (rpc_mask badgeBits conf endE.inst) endE endE.inst comp.connections next

/-- Claim C9: the notification badge allocator is a deterministic function of
composition, end, configuration and architecture.  The embedding is faithful
to the source here: `global_endpoint_badges` reads only its arguments and
threads its cursor locally (no state persists across calls), so two
invocations are literally the same computation. -/
theorem c9_notif_allocator_deterministic (badgeBits : Nat) (comp : Composition)
    (endE : ConnectionEnd) (conf : Configuration) (arch : String) :
    global_endpoint_badges badgeBits comp endE conf arch
      = global_endpoint_badges badgeBits comp endE conf arch := rfl

/-- A one-connection composition with one RPC server end (`srv.s`) and three
client ends on the opposite side. -/
def rpcComp : Composition :=
  ⟨[⟨"srv", "srv"⟩, ⟨"clt", "clt"⟩],
   [⟨"conn1", ⟨"seL4RPCCall", none, none, some true, none⟩,
     [⟨0, "srv", "s"⟩],
     [⟨1, "clt", "a"⟩, ⟨2, "clt", "b"⟩, ⟨3, "clt", "c"⟩]⟩]⟩

/-- A configuration pinning the server's RPC badge base to 1 and mask to 7:
the base overlaps the mask. -/
def rpcCexConf : Configuration :=
  ⟨fun s k =>
      if s = "srv" ∧ k = "global_rpc_endpoint_base" then some 1
      else if s = "srv" ∧ k = "global_rpc_endpoint_mask" then some 7
      else none,
   fun _ _ => none, fun _ _ => none, fun _ _ => none, fun _ => none⟩

/-- Claim C1 (counterexample): with base = 1 and mask = 7 (a configuration
whose base overlaps the mask), the RPC allocator gives the server of 3
clients the badge list `[1, 3, 3]` — three badges, each OR'd with the base,
but not pairwise distinct (the raw badges 1, 2, 3 collide after `| base`). -/
theorem c1_counterexample :
    global_rpc_endpoint_badges 4 rpcComp ⟨0, "srv", "s"⟩ rpcCexConf = .ok [1, 3, 3]
    ∧ ¬ ([1, 3, 3] : List Nat).Pairwise (· ≠ ·) := by
  have s1 : rpc_set_next_badge 4 "srv.s" 1 7 = .ok 1 := by
    simp +decide [rpc_set_next_badge]
  have s2 : rpc_set_next_badge 4 "srv.s" 2 7 = .ok 2 := by
    simp +decide [rpc_set_next_badge]
  have s3 : rpc_set_next_badge 4 "srv.s" 3 7 = .ok 3 := by
    simp +decide [rpc_set_next_badge]
  have s4 : rpc_set_next_badge 4 "srv.s" 4 7 = .ok 4 := by
    simp +decide [rpc_set_next_badge]
  constructor
  · simp +decide [global_rpc_endpoint_badges, rpc_scan_conns, rpc_scan_ends, rpc_alloc_peers,
      rpc_base, rpc_mask, rpcComp, rpcCexConf, attr_default, endStr, s1, s2, s3, s4]
  · decide

/-- A one-connection composition with a notification end `i.e` on the from
side. -/
def notifComp : Composition :=
  ⟨[⟨"i", "i"⟩, ⟨"j", "j"⟩],
   [⟨"n1", ⟨"seL4Notification", some true, none, none, none⟩,
     [⟨0, "i", "e"⟩], [⟨1, "j", "f"⟩]⟩]⟩

/-- A configuration pinning instance `i`'s notification badge base to 0 and
mask to `16 = 2^4`: the mask's only bit sits exactly at the badge width. -/
def notifCexConf : Configuration :=
  ⟨fun s k =>
      if s = "i" ∧ k = "global_endpoint_base" then some 0
      else if s = "i" ∧ k = "global_endpoint_mask" then some 16
      else none,
   fun _ _ => none, fun _ _ => none, fun _ _ => none, fun _ => none⟩

/-- Claim C2 (counterexample): with `badgeBits = 4`, base = 0 and
`mask = 2^4`, the notification allocator emits the badge 16; its raw value
(base removed) is 16 — inside the mask, but not below `2^badgeBits`, so the
claimed strict width bound fails for this configuration. -/
theorem c2_counterexample :
    global_endpoint_badges 4 notifComp ⟨0, "i", "e"⟩ notifCexConf "aarch64" = .ok (.single 16)
    ∧ (16 : Nat) &&& 16 = 16
    ∧ ¬ ((16 : Nat) < 2^4) := by
  refine ⟨?_, by decide, by decide⟩
  have s0 : set_next_badge 4 "i.e" 0 16 = .ok 16 := by
    simp +decide [set_next_badge]
  simp +decide [global_endpoint_badges, notif_scan_conns, notif_scan_ends, notif_scan_dtb,
    notif_base, notif_mask, notifComp, notifCexConf, attr_default, endStr, s0]

/-- The invariant the notification allocator maintains on its cursor: zero is
excluded after seeding, the cursor is a power of two whose bit lies inside
`mask`, and it never exceeds `2^badgeBits`. -/
def GoodCursor (badgeBits mask next : Nat) : Prop :=
  (∃ k, next = 2^k) ∧ next &&& mask = next ∧ next ≤ 2^badgeBits

theorem set_next_badge_good (badgeBits : Nat) (e : String) (next mask r : Nat)
    (hg : GoodCursor badgeBits mask next)
    (h : set_next_badge badgeBits e next mask = .ok r) :
    GoodCursor badgeBits mask r ∧ next < r := by
  have hp := set_next_badge_ok badgeBits e next mask r (.inr hg.1) h
  exact ⟨⟨hp.1, hp.2.1, hp.2.2.1⟩, hp.2.2.2⟩

theorem notif_alloc_irqs_inv (badgeBits : Nat) (eS : String) (base mask : Nat) :
    ∀ (n : Nat) (next : Nat) (l : List Nat) (fin : Nat),
      GoodCursor badgeBits mask next →
      notif_alloc_irqs badgeBits eS base mask n next = .ok (l, fin) →
      GoodCursor badgeBits mask fin ∧ next ≤ fin ∧
      ∃ rs : List Nat, l = rs.map (· ||| base) ∧ rs.Pairwise (· < ·) ∧
        ∀ r ∈ rs, GoodCursor badgeBits mask r ∧ next ≤ r := by
  intro n
  induction n with
  | zero =>
    intro next l fin hg h
    simp only [notif_alloc_irqs] at h
    cases h
    exact ⟨hg, le_refl _, [], rfl, List.Pairwise.nil, by simp⟩
  | succ m ih =>
    intro next l fin hg h
    simp only [notif_alloc_irqs] at h
    cases hs : set_next_badge badgeBits eS next mask with
    | error er => rw [hs] at h; cases h
    | ok next' =>
      rw [hs] at h
      simp only [] at h
      obtain ⟨hg', hlt⟩ := set_next_badge_good badgeBits eS next mask next' hg hs
      cases hr : notif_alloc_irqs badgeBits eS base mask m next' with
      | error er => rw [hr] at h; cases h
      | ok pr =>
        obtain ⟨restl, finl⟩ := pr
        rw [hr] at h
        simp only [] at h
        obtain ⟨hgf, hle, rs', hmap, hpw, hall⟩ := ih next' restl finl hg' hr
        cases h
        refine ⟨hgf, by omega, next :: rs', by simp [hmap], ?_, ?_⟩
        · exact List.pairwise_cons.mpr ⟨fun r hr' => by have := (hall r hr').2; omega, hpw⟩
        · intro r hr'
          rcases List.mem_cons.1 hr' with rfl | hmem
          · exact ⟨hg, le_refl _⟩
          · exact ⟨(hall r hmem).1, by have := (hall r hmem).2; omega⟩

theorem notif_scan_ends_inv (badgeBits : Nat) (eS : String) (base mask : Nat)
    (endE : ConnectionEnd) (inst : String) :
    ∀ (ends : List ConnectionEnd) (next : Nat) (ores : Option Nat) (fin : Nat),
      GoodCursor badgeBits mask next →
      notif_scan_ends badgeBits eS base mask endE inst ends next = .ok (ores, fin) →
      GoodCursor badgeBits mask fin ∧
      ∀ b, ores = some b → ∃ raw, b = raw ||| base ∧ GoodCursor badgeBits mask raw := by
  intro ends
  induction ends with
  | nil =>
    intro next ores fin hg h
    simp only [notif_scan_ends] at h
    cases h
    exact ⟨hg, by simp⟩
  | cons i rest ih =>
    intro next ores fin hg h
    simp only [notif_scan_ends] at h
    by_cases hinst : i.inst = inst
    · rw [if_pos hinst] at h
      by_cases hEi : endE = i
      · rw [if_pos hEi] at h
        cases h
        refine ⟨hg, ?_⟩
        intro b hb
        cases hb
        exact ⟨next, rfl, hg⟩
      · rw [if_neg hEi] at h
        cases hs : set_next_badge badgeBits eS next mask with
        | error er => rw [hs] at h; cases h
        | ok next' =>
          rw [hs] at h
          simp only [] at h
          obtain ⟨hg', _⟩ := set_next_badge_good badgeBits eS next mask next' hg hs
          exact ih next' ores fin hg' h
    · rw [if_neg hinst] at h
      exact ih next ores fin hg h

theorem notif_scan_dtb_inv (badgeBits : Nat) (eS : String) (base mask : Nat)
    (endE : ConnectionEnd) (conf : Configuration) (arch : String) :
    ∀ (ends : List ConnectionEnd) (next : Nat) (ores : Option (List Nat)) (fin : Nat),
      GoodCursor badgeBits mask next →
      notif_scan_dtb badgeBits eS base mask endE conf arch ends next = .ok (ores, fin) →
      GoodCursor badgeBits mask fin ∧
      ∀ l, ores = some l → ∃ rs : List Nat, l = rs.map (· ||| base) ∧ rs.Pairwise (· < ·) ∧
        ∀ r ∈ rs, GoodCursor badgeBits mask r := by
  intro ends
  induction ends with
  | nil =>
    intro next ores fin hg h
    simp only [notif_scan_dtb] at h
    cases h
    exact ⟨hg, by simp⟩
  | cons te rest ih =>
    intro next ores fin hg h
    simp only [notif_scan_dtb] at h
    by_cases hgen : ((conf.boolVal (endStr te) "generate_interrupts").getD false) = false
    · rw [if_pos hgen] at h
      exact ih next ores fin hg h
    · rw [if_neg hgen] at h
      cases hq : conf.dtbQuery (endStr te) with
      | none => rw [hq] at h; cases h
      | some node =>
        rw [hq] at h
        simp only [] at h
        cases hp : parse_dtb_node_interrupts node (-1) arch with
        | error er => rw [hp] at h; cases h
        | ok irqs =>
          rw [hp] at h
          simp only [] at h
          cases ha : notif_alloc_irqs badgeBits eS base mask irqs.length next with
          | error er => rw [ha] at h; cases h
          | ok pr =>
            obtain ⟨irq_badges, next'⟩ := pr
            rw [ha] at h
            simp only [] at h
            obtain ⟨hg', _, rs, hmap, hpw, hall⟩ :=
              notif_alloc_irqs_inv badgeBits eS base mask irqs.length next irq_badges next' hg ha
            by_cases hEte : endE = te
            · rw [if_pos hEte] at h
              cases h
              refine ⟨hg', ?_⟩
              intro l hl
              cases hl
              exact ⟨rs, hmap, hpw, fun r hr => (hall r hr).1⟩
            · rw [if_neg hEte] at h
              exact ih next' ores fin hg' h

theorem notif_scan_conns_inv (badgeBits : Nat) (eS : String) (base mask : Nat)
    (endE : ConnectionEnd) (inst : String) (conf : Configuration) (arch : String) :
    ∀ (conns : List Connection) (next : Nat) (res : NotifResult),
      GoodCursor badgeBits mask next →
      notif_scan_conns badgeBits eS base mask endE inst conf arch conns next = .ok res →
      (∀ b, res = .single b → ∃ raw, b = raw ||| base ∧ GoodCursor badgeBits mask raw) ∧
      (∀ l, res = .list l → ∃ rs : List Nat, l = rs.map (· ||| base) ∧ rs.Pairwise (· < ·) ∧
        ∀ r ∈ rs, GoodCursor badgeBits mask r) := by
  intro conns
  induction conns with
  | nil =>
    intro next res hg h
    simp only [notif_scan_conns] at h
    cases h
  | cons c rest ih =>
    intro next res hg h
    simp only [notif_scan_conns] at h
    cases hblk0 : (if (c.type.name = "seL4DTBHardwareThreadless" ∨ c.type.name = "seL4DTBHWThreadless")
          ∧ (c.to_ends.any fun te => te.inst == inst)
        then notif_scan_dtb badgeBits eS base mask endE conf arch c.to_ends next
        else .ok (none, next)) with
    | error er => rw [hblk0] at h; cases h
    | ok pr0 =>
      obtain ⟨ores0, next1⟩ := pr0
      rw [hblk0] at h
      have hblk0' : GoodCursor badgeBits mask next1 ∧
          ∀ l, ores0 = some l → ∃ rs : List Nat, l = rs.map (· ||| base) ∧ rs.Pairwise (· < ·) ∧
            ∀ r ∈ rs, GoodCursor badgeBits mask r := by
        by_cases hc0 : (c.type.name = "seL4DTBHardwareThreadless" ∨ c.type.name = "seL4DTBHWThreadless")
            ∧ (c.to_ends.any fun te => te.inst == inst)
        · rw [if_pos hc0] at hblk0
          exact notif_scan_dtb_inv badgeBits eS base mask endE conf arch c.to_ends next
            ores0 next1 hg hblk0
        · rw [if_neg hc0] at hblk0
          cases hblk0
          exact ⟨hg, by simp⟩
      cases hores0 : ores0 with
      | some l0 =>
        rw [hores0] at h
        simp only [] at h
        cases h
        constructor
        · intro b hb
          exact NotifResult.noConfusion hb
        · intro l hl
          cases hl
          exact hblk0'.2 l0 hores0
      | none =>
        rw [hores0] at h
        simp only [] at h
        cases hblk1 : (if attr_default c.type.from_global_endpoint
            then notif_scan_ends badgeBits eS base mask endE inst c.from_ends next1
            else .ok (none, next1)) with
        | error er => rw [hblk1] at h; cases h
        | ok pr1 =>
          obtain ⟨ores1, next2⟩ := pr1
          rw [hblk1] at h
          have hblk1' : GoodCursor badgeBits mask next2 ∧
              ∀ b, ores1 = some b → ∃ raw, b = raw ||| base ∧ GoodCursor badgeBits mask raw := by
            by_cases hc1 : attr_default c.type.from_global_endpoint
            · rw [if_pos hc1] at hblk1
              exact notif_scan_ends_inv badgeBits eS base mask endE inst c.from_ends next1
                ores1 next2 hblk0'.1 hblk1
            · rw [if_neg hc1] at hblk1
              cases hblk1
              exact ⟨hblk0'.1, by simp⟩
          cases hores1 : ores1 with
          | some b1 =>
            rw [hores1] at h
            simp only [] at h
            cases h
            constructor
            · intro b hb
              cases hb
              exact hblk1'.2 b1 hores1
            · intro l hl
              exact NotifResult.noConfusion hl
          | none =>
            rw [hores1] at h
            simp only [] at h
            cases hblk2 : (if attr_default c.type.to_global_endpoint
                then notif_scan_ends badgeBits eS base mask endE inst c.to_ends next2
                else .ok (none, next2)) with
            | error er => rw [hblk2] at h; cases h
            | ok pr2 =>
              obtain ⟨ores2, next3⟩ := pr2
              rw [hblk2] at h
              have hblk2' : GoodCursor badgeBits mask next3 ∧
                  ∀ b, ores2 = some b → ∃ raw, b = raw ||| base ∧ GoodCursor badgeBits mask raw := by
                by_cases hc2 : attr_default c.type.to_global_endpoint
                · rw [if_pos hc2] at hblk2
                  exact notif_scan_ends_inv badgeBits eS base mask endE inst c.to_ends next2
                    ores2 next3 hblk1'.1 hblk2
                · rw [if_neg hc2] at hblk2
                  cases hblk2
                  exact ⟨hblk1'.1, by simp⟩
              cases hores2 : ores2 with
              | some b2 =>
                rw [hores2] at h
                simp only [] at h
                cases h
                constructor
                · intro b hb
                  cases hb
                  exact hblk2'.2 b2 hores2
                · intro l hl
                  exact NotifResult.noConfusion hl
              | none =>
                rw [hores2] at h
                simp only [] at h
                exact ih next3 res hblk2'.1 h

/-- The invariant the RPC allocator maintains on its cursor: all bits inside
`mask` and strictly below `min(2^badgeBits, mask)`. -/
def RGood (badgeBits mask next : Nat) : Prop :=
  next &&& mask = next ∧ next < min (2^badgeBits) mask

theorem rpc_alloc_peers_inv (badgeBits : Nat) (eS : String) (base mask : Nat) :
    ∀ (opp : List ConnectionEnd) (next : Nat) (l : List Nat) (fin : Nat),
      RGood badgeBits mask next →
      rpc_alloc_peers badgeBits eS base mask opp next = .ok (l, fin) →
      RGood badgeBits mask fin ∧ next ≤ fin ∧
      ∃ rs : List Nat, l = rs.map (· ||| base) ∧ rs.Pairwise (· < ·) ∧
        ∀ r ∈ rs, r &&& mask = r ∧ next ≤ r ∧ r < min (2^badgeBits) mask := by
  intro opp
  induction opp with
  | nil =>
    intro next l fin hg h
    simp only [rpc_alloc_peers] at h
    cases h
    exact ⟨hg, le_refl _, [], rfl, List.Pairwise.nil, by simp⟩
  | cons i rest ih =>
    intro next l fin hg h
    simp only [rpc_alloc_peers] at h
    cases hs : rpc_set_next_badge badgeBits eS (next+1) mask with
    | error er => rw [hs] at h; cases h
    | ok next' =>
      rw [hs] at h
      simp only [] at h
      have hpost := rpc_set_next_badge_ok badgeBits eS (next+1) mask next' hs
      have hg' : RGood badgeBits mask next' := ⟨hpost.1, hpost.2.2⟩
      cases hr : rpc_alloc_peers badgeBits eS base mask rest next' with
      | error er => rw [hr] at h; cases h
      | ok pr =>
        obtain ⟨restl, finl⟩ := pr
        rw [hr] at h
        simp only [] at h
        obtain ⟨hgf, hle, rs', hmap, hpw, hall⟩ := ih next' restl finl hg' hr
        cases h
        have hstep : next + 1 ≤ next' := hpost.2.1
        refine ⟨hgf, by omega, next :: rs', by simp [hmap], ?_, ?_⟩
        · refine List.pairwise_cons.mpr ⟨?_, hpw⟩
          intro r hr'
          have h1 := (hall r hr').2.1
          omega
        · intro r hr'
          rcases List.mem_cons.1 hr' with rfl | hmem
          · exact ⟨hg.1, le_refl _, hg.2⟩
          · obtain ⟨hm1, hm2, hm3⟩ := hall r hmem
            exact ⟨hm1, by omega, hm3⟩

theorem rpc_scan_ends_inv (badgeBits : Nat) (eS : String) (base mask : Nat)
    (endE : ConnectionEnd) (inst : String) (opp : List ConnectionEnd) :
    ∀ (ends : List ConnectionEnd) (next : Nat) (ores : Option (List Nat)) (fin : Nat),
      RGood badgeBits mask next →
      rpc_scan_ends badgeBits eS base mask endE inst opp ends next = .ok (ores, fin) →
      RGood badgeBits mask fin ∧
      ∀ l, ores = some l → ∃ rs : List Nat, l = rs.map (· ||| base) ∧ rs.Pairwise (· < ·) ∧
        ∀ r ∈ rs, r &&& mask = r ∧ r < min (2^badgeBits) mask := by
  intro ends
  induction ends with
  | nil =>
    intro next ores fin hg h
    simp only [rpc_scan_ends] at h
    cases h
    exact ⟨hg, by simp⟩
  | cons i rest ih =>
    intro next ores fin hg h
    simp only [rpc_scan_ends] at h
    by_cases hinst : i.inst = inst
    · rw [if_pos hinst] at h
      cases ha : rpc_alloc_peers badgeBits eS base mask opp next with
      | error er => rw [ha] at h; cases h
      | ok pr =>
        obtain ⟨batch, next'⟩ := pr
        rw [ha] at h
        simp only [] at h
        obtain ⟨hg', _, rs, hmap, hpw, hall⟩ :=
          rpc_alloc_peers_inv badgeBits eS base mask opp next batch next' hg ha
        by_cases hEi : endE = i
        · rw [if_pos hEi] at h
          cases h
          refine ⟨hg', ?_⟩
          intro l hl
          cases hl
          exact ⟨rs, hmap, hpw, fun r hr => ⟨(hall r hr).1, (hall r hr).2.2⟩⟩
        · rw [if_neg hEi] at h
          exact ih next' ores fin hg' h
    · rw [if_neg hinst] at h
      exact ih next ores fin hg h

theorem rpc_scan_conns_inv (badgeBits : Nat) (eS : String) (base mask : Nat)
    (endE : ConnectionEnd) (inst : String) :
    ∀ (conns : List Connection) (next : Nat) (l : List Nat),
      RGood badgeBits mask next →
      rpc_scan_conns badgeBits eS base mask endE inst conns next = .ok l →
      ∃ rs : List Nat, l = rs.map (· ||| base) ∧ rs.Pairwise (· < ·) ∧
        ∀ r ∈ rs, r &&& mask = r ∧ r < min (2^badgeBits) mask := by
  intro conns
  induction conns with
  | nil =>
    intro next l hg h
    simp only [rpc_scan_conns] at h
    cases h
  | cons c rest ih =>
    intro next l hg h
    simp only [rpc_scan_conns] at h
    cases hblk0 : (if attr_default c.type.from_global_rpc_endpoint
        then rpc_scan_ends badgeBits eS base mask endE inst c.to_ends c.from_ends next
        else .ok (none, next)) with
    | error er => rw [hblk0] at h; cases h
    | ok pr0 =>
      obtain ⟨ores0, next1⟩ := pr0
      rw [hblk0] at h
      have hblk0' : RGood badgeBits mask next1 ∧
          ∀ l0, ores0 = some l0 → ∃ rs : List Nat, l0 = rs.map (· ||| base) ∧
            rs.Pairwise (· < ·) ∧ ∀ r ∈ rs, r &&& mask = r ∧ r < min (2^badgeBits) mask := by
        by_cases hc0 : attr_default c.type.from_global_rpc_endpoint
        · rw [if_pos hc0] at hblk0
          exact rpc_scan_ends_inv badgeBits eS base mask endE inst c.to_ends c.from_ends
            next ores0 next1 hg hblk0
        · rw [if_neg hc0] at hblk0
          cases hblk0
          exact ⟨hg, by simp⟩
      cases hores0 : ores0 with
      | some l0 =>
        rw [hores0] at h
        simp only [] at h
        cases h
        exact hblk0'.2 l hores0
      | none =>
        rw [hores0] at h
        simp only [] at h
        cases hblk1 : (if attr_default c.type.to_global_rpc_endpoint
            then rpc_scan_ends badgeBits eS base mask endE inst c.from_ends c.to_ends next1
            else .ok (none, next1)) with
        | error er => rw [hblk1] at h; cases h
        | ok pr1 =>
          obtain ⟨ores1, next2⟩ := pr1
          rw [hblk1] at h
          have hblk1' : RGood badgeBits mask next2 ∧
              ∀ l1, ores1 = some l1 → ∃ rs : List Nat, l1 = rs.map (· ||| base) ∧
                rs.Pairwise (· < ·) ∧ ∀ r ∈ rs, r &&& mask = r ∧ r < min (2^badgeBits) mask := by
            by_cases hc1 : attr_default c.type.to_global_rpc_endpoint
            · rw [if_pos hc1] at hblk1
              exact rpc_scan_ends_inv badgeBits eS base mask endE inst c.from_ends c.to_ends
                next1 ores1 next2 hblk0'.1 hblk1
            · rw [if_neg hc1] at hblk1
              cases hblk1
              exact ⟨hblk0'.1, by simp⟩
          cases hores1 : ores1 with
          | some l1 =>
            rw [hores1] at h
            simp only [] at h
            cases h
            exact hblk1'.2 l hores1
          | none =>
            rw [hores1] at h
            simp only [] at h
            exact ih next2 l hblk1'.1 h

theorem or_and_distrib (a b c : Nat) : (a ||| b) &&& c = (a &&& c) ||| (b &&& c) := by
  apply Nat.eq_of_testBit_eq
  intro i
  rw [Nat.testBit_and, Nat.testBit_or, Nat.testBit_or, Nat.testBit_and, Nat.testBit_and]
  cases a.testBit i <;> cases b.testBit i <;> cases c.testBit i <;> rfl

theorem or_base_inj (base mask r1 r2 : Nat) (hb : base &&& mask = 0)
    (h1 : r1 &&& mask = r1) (h2 : r2 &&& mask = r2)
    (h : r1 ||| base = r2 ||| base) : r1 = r2 := by
  have e1 : (r1 ||| base) &&& mask = r1 := by rw [or_and_distrib, h1, hb, Nat.or_zero]
  have e2 : (r2 ||| base) &&& mask = r2 := by rw [or_and_distrib, h2, hb, Nat.or_zero]
  rw [← e1, ← e2, h]

/-- The key distinctness step: a strictly increasing list of raw badges that
all lie inside `mask`, OR'd with a base disjoint from `mask`, stays pairwise
distinct. -/
theorem distinct_of_masked_increasing (base mask : Nat) (hb : base &&& mask = 0)
    (rs : List Nat) (pw : rs.Pairwise (· < ·)) (hm : ∀ r ∈ rs, r &&& mask = r) :
    (rs.map (· ||| base)).Pairwise (· ≠ ·) := by
  rw [List.pairwise_map]
  refine pw.imp_of_mem ?_
  intro a b ha hb2 hab
  intro heq
  exact absurd (or_base_inj base mask a b hb (hm a ha) (hm b hb2) heq) (Nat.ne_of_lt hab)

/-- A configuration with no entries: every lookup falls back to its default. -/
def defaultConf : Configuration :=
  ⟨fun _ _ => none, fun _ _ => none, fun _ _ => none, fun _ _ => none, fun _ => none⟩

/-- Claim C1 (amended): provided the configured base shares no bits with the
configured mask — which holds for both allocators' defaults — every badge
list emitted by one allocator invocation is pairwise distinct (a single
returned badge is trivially so); in particular, under the default
configuration the RPC allocator hands the server end of a 3-client
connection the 3-element list `[2, 4, 6]` of pairwise-distinct badges, each
OR'd with the base.  Without the disjointness proviso the claim fails, see
`c1_counterexample`. -/
theorem c1_badges_pairwise_distinct (badgeBits : Nat) :
    (∀ (comp : Composition) (endE : ConnectionEnd) (conf : Configuration) (arch : String)
        (l : List Nat),
      notif_base conf endE.inst &&& notif_mask badgeBits conf endE.inst = 0 →
      global_endpoint_badges badgeBits comp endE conf arch = .ok (.list l) →
      l.Pairwise (· ≠ ·))
    ∧ (∀ (comp : Composition) (endE : ConnectionEnd) (conf : Configuration) (l : List Nat),
      rpc_base conf endE.inst &&& rpc_mask badgeBits conf endE.inst = 0 →
      global_rpc_endpoint_badges badgeBits comp endE conf = .ok l →
      l.Pairwise (· ≠ ·))
    ∧ global_rpc_endpoint_badges 4 rpcComp ⟨0, "srv", "s"⟩ defaultConf = .ok [2, 4, 6] := by
  refine ⟨?_, ?_, ?_⟩
  · intro comp endE conf arch l hdisj h
    unfold global_endpoint_badges at h
    cases hs : set_next_badge badgeBits (endStr endE) 0 (notif_mask badgeBits conf endE.inst) with
    | error er => rw [hs] at h; cases h
    | ok next0 =>
      rw [hs] at h
      simp only [] at h
      have hp := set_next_badge_ok badgeBits (endStr endE) 0
        (notif_mask badgeBits conf endE.inst) next0 (.inl rfl) hs
      have hg0 : GoodCursor badgeBits (notif_mask badgeBits conf endE.inst) next0 :=
        ⟨hp.1, hp.2.1, hp.2.2.1⟩
      have hres := notif_scan_conns_inv badgeBits (endStr endE) (notif_base conf endE.inst)
        (notif_mask badgeBits conf endE.inst) endE endE.inst conf arch comp.connections
        next0 (.list l) hg0 h
      obtain ⟨rs, hmap, hpw, hall⟩ := hres.2 l rfl
      rw [hmap]
      exact distinct_of_masked_increasing _ _ hdisj rs hpw (fun r hr => (hall r hr).2.1)
  · intro comp endE conf l hdisj h
    unfold global_rpc_endpoint_badges at h
    cases hs : rpc_set_next_badge badgeBits (endStr endE) 1 (rpc_mask badgeBits conf endE.inst) with
    | error er => rw [hs] at h; cases h
    | ok next0 =>
      rw [hs] at h
      simp only [] at h
      have hp := rpc_set_next_badge_ok badgeBits (endStr endE) 1
        (rpc_mask badgeBits conf endE.inst) next0 hs
      have hg0 : RGood badgeBits (rpc_mask badgeBits conf endE.inst) next0 := ⟨hp.1, hp.2.2⟩
      obtain ⟨rs, hmap, hpw, hall⟩ := rpc_scan_conns_inv badgeBits (endStr endE)
        (rpc_base conf endE.inst) (rpc_mask badgeBits conf endE.inst) endE endE.inst
        comp.connections next0 l hg0 h
      rw [hmap]
      exact distinct_of_masked_increasing _ _ hdisj rs hpw (fun r hr => (hall r hr).1)
  · have s1 : rpc_set_next_badge 4 "srv.s" 1 14 = .ok 2 := by
      simp +decide [rpc_set_next_badge, andNot]
    have s3 : rpc_set_next_badge 4 "srv.s" 3 14 = .ok 4 := by
      simp +decide [rpc_set_next_badge, andNot]
    have s5 : rpc_set_next_badge 4 "srv.s" 5 14 = .ok 6 := by
      simp +decide [rpc_set_next_badge, andNot]
    have s7 : rpc_set_next_badge 4 "srv.s" 7 14 = .ok 8 := by
      simp +decide [rpc_set_next_badge, andNot]
    simp +decide [global_rpc_endpoint_badges, rpc_scan_conns, rpc_scan_ends, rpc_alloc_peers,
      rpc_base, rpc_mask, rpcComp, defaultConf, attr_default, endStr, s1, s3, s5, s7]

/-- Witness for C1 (amended) at the concrete default-configuration 3-client
example: the theorem itself computes the result `[2, 4, 6]` and proves it
pairwise distinct. -/
theorem c1_badges_pairwise_distinct_witness : ([2, 4, 6] : List Nat).Pairwise (· ≠ ·) :=
  (c1_badges_pairwise_distinct 4).2.1 rpcComp ⟨0, "srv", "s"⟩ defaultConf [2, 4, 6]
    (by decide) (c1_badges_pairwise_distinct 4).2.2

/-- Claim C2 (amended): every badge emitted by either allocator decomposes as
`raw | base` with the raw badge fully inside the configured mask
(`raw & mask = raw`); raw RPC badges are always strictly below
`2^badgeBits`; raw notification badges are at most `2^badgeBits`, and
strictly below it whenever the configured mask is below `2^badgeBits` (as
with the defaults) — but not in general, see `c2_counterexample`. -/
theorem c2_badge_mask_invariant (badgeBits : Nat) (comp : Composition) (endE : ConnectionEnd)
    (conf : Configuration) (arch : String) :
    (∀ b, global_endpoint_badges badgeBits comp endE conf arch = .ok (.single b) →
      ∃ raw, b = raw ||| notif_base conf endE.inst
        ∧ raw &&& notif_mask badgeBits conf endE.inst = raw
        ∧ raw ≤ 2^badgeBits
        ∧ (notif_mask badgeBits conf endE.inst < 2^badgeBits → raw < 2^badgeBits))
    ∧ (∀ l b, global_endpoint_badges badgeBits comp endE conf arch = .ok (.list l) → b ∈ l →
      ∃ raw, b = raw ||| notif_base conf endE.inst
        ∧ raw &&& notif_mask badgeBits conf endE.inst = raw
        ∧ raw ≤ 2^badgeBits
        ∧ (notif_mask badgeBits conf endE.inst < 2^badgeBits → raw < 2^badgeBits))
    ∧ (∀ l b, global_rpc_endpoint_badges badgeBits comp endE conf = .ok l → b ∈ l →
      ∃ raw, b = raw ||| rpc_base conf endE.inst
        ∧ raw &&& rpc_mask badgeBits conf endE.inst = raw
        ∧ raw < 2^badgeBits) := by
  refine ⟨?_, ?_, ?_⟩
  · intro b h
    unfold global_endpoint_badges at h
    cases hs : set_next_badge badgeBits (endStr endE) 0 (notif_mask badgeBits conf endE.inst) with
    | error er => rw [hs] at h; cases h
    | ok next0 =>
      rw [hs] at h
      simp only [] at h
      have hp := set_next_badge_ok badgeBits (endStr endE) 0
        (notif_mask badgeBits conf endE.inst) next0 (.inl rfl) hs
      have hg0 : GoodCursor badgeBits (notif_mask badgeBits conf endE.inst) next0 :=
        ⟨hp.1, hp.2.1, hp.2.2.1⟩
      have hres := notif_scan_conns_inv badgeBits (endStr endE) (notif_base conf endE.inst)
        (notif_mask badgeBits conf endE.inst) endE endE.inst conf arch comp.connections
        next0 (.single b) hg0 h
      obtain ⟨raw, hbraw, hgood⟩ := hres.1 b rfl
      refine ⟨raw, hbraw, hgood.2.1, hgood.2.2, ?_⟩
      intro hmlt
      have hle : raw ≤ notif_mask badgeBits conf endE.inst := by
        rw [← hgood.2.1]
        exact Nat.and_le_right
      omega
  · intro l b h hmem
    unfold global_endpoint_badges at h
    cases hs : set_next_badge badgeBits (endStr endE) 0 (notif_mask badgeBits conf endE.inst) with
    | error er => rw [hs] at h; cases h
    | ok next0 =>
      rw [hs] at h
      simp only [] at h
      have hp := set_next_badge_ok badgeBits (endStr endE) 0
        (notif_mask badgeBits conf endE.inst) next0 (.inl rfl) hs
      have hg0 : GoodCursor badgeBits (notif_mask badgeBits conf endE.inst) next0 :=
        ⟨hp.1, hp.2.1, hp.2.2.1⟩
      have hres := notif_scan_conns_inv badgeBits (endStr endE) (notif_base conf endE.inst)
        (notif_mask badgeBits conf endE.inst) endE endE.inst conf arch comp.connections
        next0 (.list l) hg0 h
      obtain ⟨rs, hmap, hpw, hall⟩ := hres.2 l rfl
      rw [hmap] at hmem
      obtain ⟨raw, hraw_mem, hbraw⟩ := List.mem_map.1 hmem
      have hgood := hall raw hraw_mem
      refine ⟨raw, hbraw.symm, hgood.2.1, hgood.2.2, ?_⟩
      intro hmlt
      have hle : raw ≤ notif_mask badgeBits conf endE.inst := by
        rw [← hgood.2.1]
        exact Nat.and_le_right
      omega
  · intro l b h hmem
    unfold global_rpc_endpoint_badges at h
    cases hs : rpc_set_next_badge badgeBits (endStr endE) 1 (rpc_mask badgeBits conf endE.inst) with
    | error er => rw [hs] at h; cases h
    | ok next0 =>
      rw [hs] at h
      simp only [] at h
      have hp := rpc_set_next_badge_ok badgeBits (endStr endE) 1
        (rpc_mask badgeBits conf endE.inst) next0 hs
      have hg0 : RGood badgeBits (rpc_mask badgeBits conf endE.inst) next0 := ⟨hp.1, hp.2.2⟩
      obtain ⟨rs, hmap, hpw, hall⟩ := rpc_scan_conns_inv badgeBits (endStr endE)
        (rpc_base conf endE.inst) (rpc_mask badgeBits conf endE.inst) endE endE.inst
        comp.connections next0 l hg0 h
      rw [hmap] at hmem
      obtain ⟨raw, hraw_mem, hbraw⟩ := List.mem_map.1 hmem
      have hgood := hall raw hraw_mem
      refine ⟨raw, hbraw.symm, hgood.1, ?_⟩
      exact lt_of_lt_of_le hgood.2 (min_le_left _ _)

/-- Witness for C2 (amended): under the default configuration (base 1, mask
`2^4 - 2 = 14`) the notification allocator returns the single badge 3 for
`i.e`, and the theorem decomposes it as `raw | base` with the raw badge
inside the mask and strictly below `2^4`. -/
theorem c2_badge_mask_invariant_witness :
    ∃ raw, 3 = raw ||| notif_base defaultConf "i"
      ∧ raw &&& notif_mask 4 defaultConf "i" = raw
      ∧ raw ≤ 2^4
      ∧ (notif_mask 4 defaultConf "i" < 2^4 → raw < 2^4) :=
  (c2_badge_mask_invariant 4 notifComp ⟨0, "i", "e"⟩ defaultConf "aarch64").1 3 (by
    have s0 : set_next_badge 4 "i.e" 0 14 = .ok 2 := by
      simp +decide [set_next_badge]
    simp +decide [global_endpoint_badges, notif_scan_conns, notif_scan_ends, notif_scan_dtb,
      notif_base, notif_mask, notifComp, defaultConf, attr_default, endStr, andNot, s0])

/-- The inner scan of `virtqueue_get_client_id` (macros.py lines 678-683):
`for _ in ids` bounds the scan to `len(ids)` iterations (`n` here); each
iteration advances past a `current_id` already present in `ids`
(`int == None` is false, so only pinned or assigned values match) or assigns
the current one and stops.  Returns the assigned ID (`none` when the scan is
exhausted, leaving the slot unassigned as in the source) and the final
`current_id`. -/
def vq_assign_inner : Nat → List (Option Int) → Int → Option Int × Int
  | 0, _, cur => (none, cur)
  | n+1, ids, cur =>
    if (some cur) ∈ ids then vq_assign_inner n ids (cur+1)
    else (some cur, cur+1)

/-- The outer assignment loop of `virtqueue_get_client_id` (macros.py lines
675-683): `for index, c in enumerate(connections)` — `fuel` counts the
remaining indices (seeded with `len(ids)`, so every index is visited), `k`
is the current index; pinned slots are skipped, unpinned slots get the inner
scan's ID, and `current_id` persists across slots. -/
def vq_assign (fuel : Nat) (k : Nat) (ids : List (Option Int)) (cur : Int) :
    List (Option Int) :=
  match fuel with
  | 0 => ids
  | n+1 =>
    match ids.get? k with
    | none => ids
    | some (some _) => vq_assign n (k+1) ids cur
    | some none =>
      match vq_assign_inner ids.length ids cur with
      | (some v, cur') => vq_assign n (k+1) (ids.set k (some v)) cur'
      | (none, cur') => vq_assign n (k+1) ids cur'

/-- The connection scan of `virtqueue_get_client_id` (macros.py lines
669-674): collect, in declaration order, every end of a `seL4VirtQueues`
connection (from-ends then to-ends) owned by `inst`. -/
def vq_collect (inst : String) : List Connection → List ConnectionEnd
  | [] => []
  | c :: rest =>
    (if c.type.name = "seL4VirtQueues"
     then (c.from_ends ++ c.to_ends).filter (fun i => i.inst == inst)
     else [])
    ++ vq_collect inst rest

/-- `virtqueue_get_client_id` (macros.py lines 652-684).  The source also
reads `configuration[instance.name].get("%s_id" % end.interface.name)` into
a local `base` that is never used afterwards; that read has no effect and is
not modelled.  `connections.index(end)` raises `ValueError` when the end is
not among the instance's collected ends; a slot that the exhausted inner
scan never assigned stays `None` and is returned as such, hence the
`Option Int` result. -/
def virtqueue_get_client_id (comp : Composition) (endE : ConnectionEnd)
    (conf : Configuration) : Except Err (Option Int) :=
  let connections := vq_collect endE.inst comp.connections
  let ids := connections.map (fun i => conf.intVal endE.inst (i.iface ++ "_id"))
  let assigned := vq_assign ids.length 0 ids 0
  match connections.findIdx? (fun i => i == endE) with
  | none => .error .valueError
  | some idx => .ok (assigned.getD idx none)

def vqConnType : ConnectorType := ⟨"seL4VirtQueues", none, none, none, none⟩

/-- Three `seL4VirtQueues` connections giving instance `clt` three ends, in
declaration order `a`, `b`, `c`. -/
def vqComp : Composition :=
  ⟨[⟨"clt", "clt"⟩, ⟨"dev", "dev"⟩],
   [⟨"vq1", vqConnType, [⟨10, "clt", "a"⟩], [⟨11, "dev", "x"⟩]⟩,
    ⟨"vq2", vqConnType, [⟨12, "clt", "b"⟩], [⟨13, "dev", "y"⟩]⟩,
    ⟨"vq3", vqConnType, [⟨14, "clt", "c"⟩], [⟨15, "dev", "z"⟩]⟩]⟩

/-- A configuration pinning `clt`'s end with interface `piface` to ID 2 via
the `<interface>_id` key, leaving the other ends unpinned. -/
def vqConfPin (piface : String) : Configuration :=
  ⟨fun _ _ => none,
   fun s k => if s = "clt" ∧ k = piface ++ "_id" then some 2 else none,
   fun _ _ => none, fun _ _ => none, fun _ => none⟩

/-- Claim C8: with three `seL4VirtQueues` ends of one instance in
declaration order and exactly one of them pinned to ID 2 (whichever of the
three it is), the two unpinned ends receive IDs 0 and 1 in declaration
order, and the pinned value 2 is never given to an unpinned end. -/
theorem c8_virtqueue_ids :
    (virtqueue_get_client_id vqComp ⟨10, "clt", "a"⟩ (vqConfPin "a") = .ok (some 2)
     ∧ virtqueue_get_client_id vqComp ⟨12, "clt", "b"⟩ (vqConfPin "a") = .ok (some 0)
     ∧ virtqueue_get_client_id vqComp ⟨14, "clt", "c"⟩ (vqConfPin "a") = .ok (some 1))
    ∧ (virtqueue_get_client_id vqComp ⟨10, "clt", "a"⟩ (vqConfPin "b") = .ok (some 0)
     ∧ virtqueue_get_client_id vqComp ⟨12, "clt", "b"⟩ (vqConfPin "b") = .ok (some 2)
     ∧ virtqueue_get_client_id vqComp ⟨14, "clt", "c"⟩ (vqConfPin "b") = .ok (some 1))
    ∧ (virtqueue_get_client_id vqComp ⟨10, "clt", "a"⟩ (vqConfPin "c") = .ok (some 0)
     ∧ virtqueue_get_client_id vqComp ⟨12, "clt", "b"⟩ (vqConfPin "c") = .ok (some 1)
     ∧ virtqueue_get_client_id vqComp ⟨14, "clt", "c"⟩ (vqConfPin "c") = .ok (some 2)) := by
  decide

/-- First-match association lookup, the embedding of `group_labels[k]` and
`k in group_labels` (keys are unique by construction of `insertLM`). -/
def lookupLM : List (String × String) → String → Option String
  | [], _ => none
  | (k, v) :: rest, key => if k = key then some v else lookupLM rest key

/-- Python dict assignment `group_labels[k] = v`: overwrite in place when the
key exists (keeping its insertion position), else append. -/
def insertLM : List (String × String) → String → String → List (String × String)
  | [], k, v => [(k, v)]
  | (k0, v0) :: rest, k, v =>
    if k0 = k then (k0, v) :: rest else (k0, v0) :: insertLM rest k v

theorem length_filter_le_of_imp (l : List α) (p q : α → Bool)
    (hpq : ∀ a, q a = true → p a = true) :
    (l.filter q).length ≤ (l.filter p).length := by
  induction l with
  | nil => simp
  | cons a t ih =>
    by_cases hq : q a = true
    · rw [List.filter_cons, if_pos hq, List.filter_cons, if_pos (hpq a hq)]
      simpa using ih
    · rw [List.filter_cons, if_neg hq, List.filter_cons]
      by_cases hp : p a = true
      · rw [if_pos hp]
        simp only [List.length_cons]
        omega
      · rw [if_neg hp]
        exact ih

theorem length_filter_lt_of_imp (l : List α) (p q : α → Bool)
    (hpq : ∀ a, q a = true → p a = true) (x : α) (hx : x ∈ l)
    (hpx : p x = true) (hqx : q x = false) :
    (l.filter q).length < (l.filter p).length := by
  induction l with
  | nil => cases hx
  | cons a t ih =>
    rcases List.mem_cons.1 hx with rfl | hmem
    · rw [List.filter_cons, if_neg (by simp [hqx]), List.filter_cons, if_pos hpx]
      have hle := length_filter_le_of_imp t p q hpq
      simp only [List.length_cons]
      omega
    · by_cases hq : q a = true
      · rw [List.filter_cons, if_pos hq, List.filter_cons, if_pos (hpq a hq)]
        simpa using ih hmem
      · rw [List.filter_cons, if_neg hq, List.filter_cons]
        by_cases hp : p a = true
        · rw [if_pos hp]
          have := ih hmem
          simp only [List.length_cons]
          omega
        · rw [if_neg hp]
          exact ih hmem

theorem lookupLM_some_mem_values (m : List (String × String)) (k v : String)
    (h : lookupLM m k = some v) : v ∈ m.map Prod.snd := by
  induction m with
  | nil => cases h
  | cons p rest ih =>
    obtain ⟨k0, v0⟩ := p
    simp only [lookupLM] at h
    by_cases hk : k0 = k
    · rw [if_pos hk] at h
      cases h
      simp
    · rw [if_neg hk] at h
      simp [ih h]

/-- The loop of `get_canonical_label` inside `integrity_group_labels`
(macros.py lines 492-501): follow redirects; a redirect target already seen
is a cycle, raising a `TemplateError` that names the chain seen so far;
otherwise append the target to `seen` and continue.  Terminates because each
recursion consumes one value of the (finite) redirect map not yet in
`seen`. -/
def get_canonical_label_go (gl : List (String × String)) (group : String)
    (seen : List String) : Except Err String :=
  match h : lookupLM gl group with
  | none => .ok group
  | some g =>
    if g ∈ seen then .error (.labelCycle seen)
    else get_canonical_label_go gl g (seen ++ [g])
termination_by ((gl.map Prod.snd).filter (fun v => decide (¬ v ∈ seen))).length
decreasing_by
  rename_i hnotin
  exact length_filter_lt_of_imp (gl.map Prod.snd) _ _
    (fun a ha => by
      simp only [decide_eq_true_eq] at ha ⊢
      intro hmem
      exact ha (by simp [hmem]))
    g (lookupLM_some_mem_values gl group g h)
    (by simp [hnotin]) (by simp)

/-- `get_canonical_label` (macros.py lines 492-501): `group = l`,
`seen = [l]`, then the redirect loop. -/
def get_canonical_label (gl : List (String × String)) (l : String) : Except Err String :=
  get_canonical_label_go gl l [l]

/-- Step 1 of `integrity_group_labels` (macros.py lines 506-508): each
instance whose address space differs from its own name redirects to the
canonicalized address-space label; the map is built up as the loop runs. -/
def integrity_phase1 : List Inst → List (String × String) → Except Err (List (String × String))
  | [], gl => .ok gl
  | c :: rest, gl =>
    if c.address_space ≠ c.name then
      match get_canonical_label gl c.address_space with
      | .error e => .error e
      | .ok g => integrity_phase1 rest (insertLM gl c.name g)
    else integrity_phase1 rest gl

/-- Step 2 of `integrity_group_labels` (macros.py lines 511-514): each
instance with an explicit `integrity_label` configuration redirects to its
canonicalized value, overriding step 1. -/
def integrity_phase2 (conf : Configuration) :
    List Inst → List (String × String) → Except Err (List (String × String))
  | [], gl => .ok gl
  | c :: rest, gl =>
    match conf.strVal c.name "integrity_label" with
    | none => integrity_phase2 conf rest gl
    | some lab =>
      match get_canonical_label gl lab with
      | .error e => .error e
      | .ok g => integrity_phase2 conf rest (insertLM gl c.name g)

/-- The canonical labels of a connection's ends (macros.py lines 518-519),
in evaluation order (`from_ends` then `to_ends`).  The source builds a
Python set; only "exactly one distinct label" is consumed, which is
"nonempty and all equal" on this list. -/
def conn_group_labels (gl : List (String × String)) (conn : Connection) :
    Except Err (List String) :=
  mapExcept (fun e => get_canonical_label gl e.inst) (conn.from_ends ++ conn.to_ends)

/-- Step 3 of `integrity_group_labels` (macros.py lines 517-521): a
connection all of whose ends canonicalize to one label (an "internal"
connection) redirects to that label. -/
def integrity_phase3 : List Connection → List (String × String) → Except Err (List (String × String))
  | [], gl => .ok gl
  | conn :: rest, gl =>
    match conn_group_labels gl conn with
    | .error e => .error e
    | .ok [] => integrity_phase3 rest gl
    | .ok (l0 :: ls) =>
      if ls.all (fun x => x == l0) then integrity_phase3 rest (insertLM gl conn.name l0)
      else integrity_phase3 rest gl

/-- The final dictionary comprehension of `integrity_group_labels`
(macros.py lines 523-526): map every recorded key to the canonicalization of
its value with respect to the complete map. -/
def integrity_finalize (gl : List (String × String)) :
    List (String × String) → Except Err (List (String × String))
  | [] => .ok []
  | (k, v) :: rest =>
    match get_canonical_label gl v with
    | .error e => .error e
    | .ok g =>
      match integrity_finalize gl rest with
      | .error e => .error e
      | .ok m => .ok ((k, g) :: m)

/-- `integrity_group_labels` (macros.py lines 473-526): the three build
phases followed by the final canonicalizing comprehension. -/
def integrity_group_labels (comp : Composition) (conf : Configuration) :
    Except Err (List (String × String)) :=
  match integrity_phase1 comp.instances [] with
  | .error e => .error e
  | .ok gl1 =>
    match integrity_phase2 conf comp.instances gl1 with
    | .error e => .error e
    | .ok gl2 =>
      match integrity_phase3 comp.connections gl2 with
      | .error e => .error e
      | .ok gl3 => integrity_finalize gl3 gl3

/-- The redirect map after steps 1-2. -/
def integrity_pre2 (comp : Composition) (conf : Configuration) :
    Except Err (List (String × String)) :=
  match integrity_phase1 comp.instances [] with
  | .error e => .error e
  | .ok gl1 => integrity_phase2 conf comp.instances gl1

/-- The redirect map after steps 1-2 and the first `k` connections of
step 3: the state in which step 3 decides whether connection `k` is
internal. -/
def integrity_pre3 (comp : Composition) (conf : Configuration) (k : Nat) :
    Except Err (List (String × String)) :=
  match integrity_pre2 comp conf with
  | .error e => .error e
  | .ok gl2 => integrity_phase3 (comp.connections.take k) gl2

theorem get_canonical_label_go_ok (gl : List (String × String)) :
    ∀ (group : String) (seen : List String) (r : String),
      get_canonical_label_go gl group seen = .ok r → lookupLM gl r = none := by
  intro group seen
  induction group, seen using get_canonical_label_go.induct gl with
  | case1 group seen hlook =>
    intro r h
    rw [get_canonical_label_go] at h
    split at h
    next heq =>
      cases h
      exact hlook
    next g heq =>
      rw [hlook] at heq
      cases heq
  | case2 group seen g hlook hmem =>
    intro r h
    rw [get_canonical_label_go] at h
    split at h
    next heq =>
      rw [hlook] at heq
      cases heq
    next g2 heq =>
      rw [hlook] at heq
      cases heq
      rw [if_pos hmem] at h
      cases h
  | case3 group seen g hlook hmem ih =>
    intro r h
    rw [get_canonical_label_go] at h
    split at h
    next heq =>
      rw [hlook] at heq
      cases heq
    next g2 heq =>
      rw [hlook] at heq
      cases heq
      rw [if_neg hmem] at h
      exact ih r h

theorem get_canonical_label_go_cases (gl : List (String × String)) :
    ∀ (group : String) (seen : List String),
      (∃ g, get_canonical_label_go gl group seen = .ok g ∧ lookupLM gl g = none)
      ∨ (∃ chain, get_canonical_label_go gl group seen = .error (.labelCycle chain)
          ∧ ∀ s ∈ seen, s ∈ chain) := by
  intro group seen
  induction group, seen using get_canonical_label_go.induct gl with
  | case1 group seen hlook =>
    left
    refine ⟨group, ?_, hlook⟩
    rw [get_canonical_label_go]
    split
    next heq => rfl
    next g heq =>
      rw [hlook] at heq
      cases heq
  | case2 group seen g hlook hmem =>
    right
    refine ⟨seen, ?_, fun s hs => hs⟩
    rw [get_canonical_label_go]
    split
    next heq =>
      rw [hlook] at heq
      cases heq
    next g2 heq =>
      rw [hlook] at heq
      cases heq
      rw [if_pos hmem]
  | case3 group seen g hlook hmem ih =>
    have heqn : get_canonical_label_go gl group seen
        = get_canonical_label_go gl g (seen ++ [g]) := by
      rw [get_canonical_label_go]
      split
      next heq =>
        rw [hlook] at heq
        cases heq
      next g2 heq =>
        rw [hlook] at heq
        cases heq
        rw [if_neg hmem]
    rcases ih with ⟨gg, hok, hnone⟩ | ⟨chain, herr, hsub⟩
    · left
      refine ⟨gg, ?_, hnone⟩
      rw [heqn]
      exact hok
    · right
      refine ⟨chain, ?_, ?_⟩
      · rw [heqn]
        exact herr
      · intro s hs
        exact hsub s (by simp [hs])

theorem keys_insertLM (m : List (String × String)) (k v j : String) :
    j ∈ (insertLM m k v).map Prod.fst ↔ j ∈ m.map Prod.fst ∨ j = k := by
  induction m with
  | nil => simp [insertLM]
  | cons p rest ih =>
    obtain ⟨k0, v0⟩ := p
    simp only [insertLM]
    by_cases hk : k0 = k
    · rw [if_pos hk]
      subst hk
      simp only [List.map_cons, List.mem_cons]
      tauto
    · rw [if_neg hk]
      simp only [List.map_cons, List.mem_cons, ih]
      tauto

theorem lookupLM_eq_none_iff (m : List (String × String)) (k : String) :
    lookupLM m k = none ↔ ¬ k ∈ m.map Prod.fst := by
  induction m with
  | nil => simp [lookupLM]
  | cons p rest ih =>
    obtain ⟨k0, v0⟩ := p
    simp only [lookupLM, List.map_cons, List.mem_cons]
    by_cases hk : k0 = k
    · rw [if_pos hk]
      subst hk
      simp
    · rw [if_neg hk]
      rw [ih]
      constructor
      · intro hn hor
        rcases hor with rfl | hmem
        · exact hk rfl
        · exact hn hmem
      · intro hn hmem
        exact hn (.inr hmem)

theorem integrity_phase1_keys :
    ∀ (insts : List Inst) (gl gl' : List (String × String)),
      integrity_phase1 insts gl = .ok gl' →
      (∀ j, j ∈ gl.map Prod.fst → j ∈ gl'.map Prod.fst)
      ∧ (∀ i ∈ insts, i.address_space ≠ i.name → i.name ∈ gl'.map Prod.fst) := by
  intro insts
  induction insts with
  | nil =>
    intro gl gl' h
    simp only [integrity_phase1] at h
    cases h
    exact ⟨fun j hj => hj, by simp⟩
  | cons c rest ih =>
    intro gl gl' h
    simp only [integrity_phase1] at h
    by_cases hc : c.address_space ≠ c.name
    · rw [if_pos hc] at h
      cases hcan : get_canonical_label gl c.address_space with
      | error e => rw [hcan] at h; cases h
      | ok g =>
        rw [hcan] at h
        simp only [] at h
        obtain ⟨hmono, hins⟩ := ih (insertLM gl c.name g) gl' h
        constructor
        · intro j hj
          exact hmono j ((keys_insertLM _ _ _ _).2 (.inl hj))
        · intro i hi hne
          rcases List.mem_cons.1 hi with rfl | hmem
          · exact hmono i.name ((keys_insertLM _ _ _ _).2 (.inr rfl))
          · exact hins i hmem hne
    · rw [if_neg hc] at h
      obtain ⟨hmono, hins⟩ := ih gl gl' h
      refine ⟨hmono, ?_⟩
      intro i hi hne
      rcases List.mem_cons.1 hi with rfl | hmem
      · exact absurd hne hc
      · exact hins i hmem hne

theorem integrity_phase2_keys (conf : Configuration) :
    ∀ (insts : List Inst) (gl gl' : List (String × String)),
      integrity_phase2 conf insts gl = .ok gl' →
      (∀ j, j ∈ gl.map Prod.fst → j ∈ gl'.map Prod.fst)
      ∧ (∀ i ∈ insts, (conf.strVal i.name "integrity_label").isSome →
          i.name ∈ gl'.map Prod.fst) := by
  intro insts
  induction insts with
  | nil =>
    intro gl gl' h
    simp only [integrity_phase2] at h
    cases h
    exact ⟨fun j hj => hj, by simp⟩
  | cons c rest ih =>
    intro gl gl' h
    simp only [integrity_phase2] at h
    cases hst : conf.strVal c.name "integrity_label" with
    | none =>
      rw [hst] at h
      simp only [] at h
      obtain ⟨hmono, hins⟩ := ih gl gl' h
      refine ⟨hmono, ?_⟩
      intro i hi hsome
      rcases List.mem_cons.1 hi with rfl | hmem
      · rw [hst] at hsome
        cases hsome
      · exact hins i hmem hsome
    | some lab =>
      rw [hst] at h
      simp only [] at h
      cases hcan : get_canonical_label gl lab with
      | error e => rw [hcan] at h; cases h
      | ok g =>
        rw [hcan] at h
        simp only [] at h
        obtain ⟨hmono, hins⟩ := ih (insertLM gl c.name g) gl' h
        constructor
        · intro j hj
          exact hmono j ((keys_insertLM _ _ _ _).2 (.inl hj))
        · intro i hi _
          rcases List.mem_cons.1 hi with rfl | hmem
          · exact hmono i.name ((keys_insertLM _ _ _ _).2 (.inr rfl))
          · exact hins i hmem (by assumption)

theorem integrity_phase3_keys_mono :
    ∀ (conns : List Connection) (gl gl' : List (String × String)),
      integrity_phase3 conns gl = .ok gl' →
      ∀ j, j ∈ gl.map Prod.fst → j ∈ gl'.map Prod.fst := by
  intro conns
  induction conns with
  | nil =>
    intro gl gl' h j hj
    simp only [integrity_phase3] at h
    cases h
    exact hj
  | cons conn rest ih =>
    intro gl gl' h j hj
    simp only [integrity_phase3] at h
    cases hcgl : conn_group_labels gl conn with
    | error e => rw [hcgl] at h; cases h
    | ok labels =>
      rw [hcgl] at h
      cases labels with
      | nil =>
        simp only [] at h
        exact ih gl gl' h j hj
      | cons l0 ls =>
        simp only [] at h
        by_cases hall : ls.all (fun x => x == l0) = true
        · rw [if_pos hall] at h
          exact ih _ gl' h j ((keys_insertLM _ _ _ _).2 (.inl hj))
        · rw [if_neg hall] at h
          exact ih gl gl' h j hj

theorem integrity_phase3_append :
    ∀ (xs ys : List Connection) (gl : List (String × String)),
      integrity_phase3 (xs ++ ys) gl =
        match integrity_phase3 xs gl with
        | .error e => .error e
        | .ok g => integrity_phase3 ys g := by
  intro xs
  induction xs with
  | nil =>
    intro ys gl
    simp [integrity_phase3]
  | cons conn rest ih =>
    intro ys gl
    simp only [List.cons_append, integrity_phase3]
    cases hcgl : conn_group_labels gl conn with
    | error e => rfl
    | ok labels =>
      cases labels with
      | nil => exact ih ys gl
      | cons l0 ls =>
        simp only []
        by_cases hall : ls.all (fun x => x == l0) = true
        · rw [if_pos hall, if_pos hall]
          exact ih ys _
        · rw [if_neg hall, if_neg hall]
          exact ih ys gl

theorem integrity_finalize_spec (gl : List (String × String)) :
    ∀ (entries m : List (String × String)),
      integrity_finalize gl entries = .ok m →
      m.map Prod.fst = entries.map Prod.fst ∧ ∀ p ∈ m, lookupLM gl p.2 = none := by
  intro entries
  induction entries with
  | nil =>
    intro m h
    simp only [integrity_finalize] at h
    cases h
    simp
  | cons p rest ih =>
    intro m h
    obtain ⟨k, v⟩ := p
    simp only [integrity_finalize] at h
    cases hcan : get_canonical_label gl v with
    | error e => rw [hcan] at h; cases h
    | ok g =>
      rw [hcan] at h
      simp only [] at h
      cases hrec : integrity_finalize gl rest with
      | error e => rw [hrec] at h; cases h
      | ok m' =>
        rw [hrec] at h
        simp only [] at h
        cases h
        obtain ⟨hkeys, hcanon⟩ := ih m' hrec
        constructor
        · simp [hkeys]
        · intro q hq
          rcases List.mem_cons.1 hq with rfl | hmem
          · exact get_canonical_label_go_ok gl v [v] g hcan
          · exact hcanon q hmem

/-- A composition with a single ordinary instance: its address space is its
own name and it carries no `integrity_label`. -/
def c6Comp : Composition := ⟨[⟨"a", "a"⟩], []⟩

/-- Claim C6 (counterexample): `integrity_group_labels` on a composition
with one ordinary instance returns the empty mapping — the instance `a` is
not a key, so the mapping's keys do not include every instance. -/
theorem c6_counterexample :
    integrity_group_labels c6Comp defaultConf = .ok []
    ∧ ¬ ("a" ∈ ([] : List (String × String)).map Prod.fst) := by
  constructor
  · rfl
  · simp

/-- Claim C6 (amended): on every composition and configuration on which it
succeeds, `integrity_group_labels` returns a mapping whose keys include
every instance whose address-space group differs from its own name, every
instance with an explicit `integrity_label`, and every connection that
step 3 finds internal (all of its ends' labels canonicalize, in the redirect
map current when that connection is processed, to one label); and every
value of the mapping is canonical: the mapping holds no further redirect for
it.  (The original claim's "every instance" fails for ordinary instances,
see `c6_counterexample`.) -/
theorem c6_integrity_group_labels (comp : Composition) (conf : Configuration)
    (m : List (String × String))
    (h : integrity_group_labels comp conf = .ok m) :
    (∀ p ∈ m, lookupLM m p.2 = none)
    ∧ (∀ i ∈ comp.instances, i.address_space ≠ i.name → i.name ∈ m.map Prod.fst)
    ∧ (∀ i ∈ comp.instances, (conf.strVal i.name "integrity_label").isSome →
        i.name ∈ m.map Prod.fst)
    ∧ (∀ (k : Nat) (hk : k < comp.connections.length) (glk : List (String × String))
        (l0 : String) (ls : List String),
        integrity_pre3 comp conf k = .ok glk →
        conn_group_labels glk (comp.connections.get ⟨k, hk⟩) = .ok (l0 :: ls) →
        ls.all (fun x => x == l0) = true →
        (comp.connections.get ⟨k, hk⟩).name ∈ m.map Prod.fst) := by
  unfold integrity_group_labels at h
  cases hp1 : integrity_phase1 comp.instances [] with
  | error e => rw [hp1] at h; cases h
  | ok gl1 =>
    rw [hp1] at h
    simp only [] at h
    cases hp2 : integrity_phase2 conf comp.instances gl1 with
    | error e => rw [hp2] at h; cases h
    | ok gl2 =>
      rw [hp2] at h
      simp only [] at h
      cases hp3 : integrity_phase3 comp.connections gl2 with
      | error e => rw [hp3] at h; cases h
      | ok gl3 =>
        rw [hp3] at h
        simp only [] at h
        obtain ⟨hkeys, hcanon⟩ := integrity_finalize_spec gl3 gl3 m h
        obtain ⟨hmono1, hins1⟩ := integrity_phase1_keys comp.instances [] gl1 hp1
        obtain ⟨hmono2, hins2⟩ := integrity_phase2_keys conf comp.instances gl1 gl2 hp2
        have hmono3 := integrity_phase3_keys_mono comp.connections gl2 gl3 hp3
        refine ⟨?_, ?_, ?_, ?_⟩
        · intro p hp
          rw [lookupLM_eq_none_iff, hkeys, ← lookupLM_eq_none_iff]
          exact hcanon p hp
        · intro i hi hne
          rw [hkeys]
          exact hmono3 i.name (hmono2 i.name (hins1 i hi hne))
        · intro i hi hsome
          rw [hkeys]
          exact hmono3 i.name (hins2 i hi hsome)
        · intro k hk glk l0 ls hpre3 hcgl hall
          have hpre2 : integrity_pre2 comp conf = .ok gl2 := by
            unfold integrity_pre2
            rw [hp1]
            exact hp2
          unfold integrity_pre3 at hpre3
          rw [hpre2] at hpre3
          simp only [] at hpre3
          have happ := integrity_phase3_append (comp.connections.take k)
            (comp.connections.drop k) gl2
          rw [List.take_append_drop] at happ
          rw [hp3, hpre3] at happ
          simp only [] at happ
          have hdrop : integrity_phase3 (comp.connections.drop k) glk = .ok gl3 := happ.symm
          rw [List.drop_eq_get_cons hk] at hdrop
          simp only [integrity_phase3] at hdrop
          rw [hcgl] at hdrop
          simp only [] at hdrop
          rw [if_pos hall] at hdrop
          rw [hkeys]
          exact integrity_phase3_keys_mono _ _ _ hdrop
            (comp.connections.get ⟨k, hk⟩).name
            ((keys_insertLM _ _ _ _).2 (.inr rfl))

/-- A composition with one grouped instance: `a` lives in address space
`grp`, so step 1 records the redirect `a ↦ grp`. -/
def c6GroupComp : Composition := ⟨[⟨"a", "grp"⟩], []⟩

/-- Witness for C6 (amended): on `c6GroupComp` the function returns
`[("a", "grp")]` and the theorem places the grouped instance `a` among the
keys. -/
theorem c6_integrity_group_labels_witness :
    "a" ∈ ([("a", "grp")] : List (String × String)).map Prod.fst :=
  ((c6_integrity_group_labels c6GroupComp defaultConf [("a", "grp")] (by
      have e1 : get_canonical_label [] "grp" = .ok "grp" := by
        simp [get_canonical_label, get_canonical_label_go, lookupLM]
      have e2 : get_canonical_label [("a", "grp")] "grp" = .ok "grp" := by
        simp [get_canonical_label, get_canonical_label_go, lookupLM]
      simp [integrity_group_labels, integrity_phase1, integrity_phase2, integrity_phase3,
        integrity_finalize, c6GroupComp, defaultConf, insertLM, e1, e2])).2.1
    ⟨"a", "grp"⟩ (by simp [c6Comp, c6GroupComp]) (by decide))

/-- Claim C7: canonicalization follows redirects repeatedly; when it
succeeds the result has no further redirect, and when a name reappears while
following its own chain it fails with a label-cycle error whose chain names
(at least) every label seen when the repeat was detected — in particular,
with the redirect map `A → B, B → A`, canonicalizing `A` fails with the
chain `[A, B]` and canonicalizing `B` fails with the chain `[B, A]`. -/
theorem c7_label_cycle (gl : List (String × String)) (l : String) :
    ((∃ g, get_canonical_label gl l = .ok g ∧ lookupLM gl g = none)
      ∨ (∃ chain, get_canonical_label gl l = .error (.labelCycle chain) ∧ l ∈ chain))
    ∧ get_canonical_label [("A", "B"), ("B", "A")] "A" = .error (.labelCycle ["A", "B"])
    ∧ get_canonical_label [("A", "B"), ("B", "A")] "B" = .error (.labelCycle ["B", "A"]) := by
  refine ⟨?_, ?_, ?_⟩
  · rcases get_canonical_label_go_cases gl l [l] with ⟨g, hok, hnone⟩ | ⟨chain, herr, hsub⟩
    · exact .inl ⟨g, hok, hnone⟩
    · exact .inr ⟨chain, herr, hsub l (by simp)⟩
  · simp [get_canonical_label, get_canonical_label_go, lookupLM]
  · simp [get_canonical_label, get_canonical_label_go, lookupLM]

end CamkesMacros
